import Mathlib

/-!
Entry filter rules of miniflux: rule matcher and rule syntax validator.

Shallow embedding of

* `internal/reader/processor/filters.go`
  (`isBlockedByRules`, `isBlockedEntry`, `isAllowedByRules`, `isAllowedEntry`,
  `isDateMatchingPattern`);
* `internal/validator/validator.go` (`IsValidRegex`, `isValidFilterRules`).

Conventions of the embedding.

* A Go `string` is a `List Char` (`Str`).  Every separator the code splits on
  (`"\n"`, `"="`, `":"`, `","`) is a single ASCII character, so splitting the
  character sequence and splitting the UTF-8 byte sequence agree.
* A `time.Time` instant is an `Int`: nanoseconds since the Unix epoch.
  `Before` and `After` are the strict order of instants.
* `time.Now()` is the explicit argument `now`.
* The regular expression engine of the Go standard library is a parameter
  (`Regexp`): which patterns compile, and what a compiled pattern matches.
* A run-time panic (index out of range) is the result `none`.
-/

/-- A Go string, as its sequence of characters. -/
abbrev Str := List Char

/-- An instant (`time.Time`), in nanoseconds since the Unix epoch. -/
abbrev Time := Int

/-! ## The standard library functions the code calls -/

namespace strings

/-- Go `strings.Split(s, sep)` for a one-character separator: the pieces of `s`
between the occurrences of `sep`; one more piece than there are separators. -/
def Split : Str → Char → List Str
  | [], _ => [[]]
  | c :: cs, sep =>
    if c = sep then [] :: Split cs sep
    else
      match Split cs sep with
      | [] => [[c]]
      | piece :: pieces => (c :: piece) :: pieces

/-- Go `strings.SplitN(s, sep, n)` for a one-character separator and `n ≥ 0`:
at most `n` pieces, the last one being the unsplit remainder. -/
def SplitN (s : Str) (sep : Char) : Nat → List Str
  | 0 => []
  | 1 => [s]
  | n + 2 =>
    match s.span (fun c => c != sep) with
    | (a, []) => [a]
    | (a, _ :: b) => a :: SplitN b sep (n + 1)

/-- Go `strings.HasPrefix(s, p)`. -/
def HasPrefix (s p : Str) : Bool := p.isPrefixOf s

/-- Go `strings.CutPrefix(s, p)`: `s` without the leading `p` and `true`, or
`s` itself and `false`. -/
def CutPrefix (s p : Str) : Str × Bool :=
  if HasPrefix s p then (s.drop p.length, true) else (s, false)

/-- Go `strings.TrimPrefix(s, p)`. -/
def TrimPrefix (s p : Str) : Str :=
  if HasPrefix s p then s.drop p.length else s

/-- Go `strings.Join(elems, sep)`. -/
def Join : List Str → Str → Str
  | [], _ => []
  | [a], _ => a
  | a :: b :: rest, sep => a ++ sep ++ Join (b :: rest) sep

end strings

namespace slices

/-- Go `slices.IndexFunc(s, f)`: the first index whose element satisfies `f`,
or `-1`. -/
def IndexFunc {α : Type} (s : List α) (f : α → Bool) : Int :=
  match s with
  | [] => -1
  | a :: rest =>
    if f a then 0
    else
      let i := IndexFunc rest f
      if i = -1 then -1 else i + 1

/-- Go `slices.ContainsFunc(s, f)`, for a predicate that may panic (`none`):
the elements are tried in order up to the first one that satisfies `f`. -/
def ContainsFunc {α : Type} (s : List α) (f : α → Option Bool) : Option Bool :=
  match s with
  | [] => some false
  | a :: rest =>
    match f a with
    | none => none
    | some true => some true
    | some false => ContainsFunc rest f

end slices

/-- The regular expression engine (`regexp` of the Go standard library), as far
as the code observes it: whether a pattern compiles, and whether a pattern that
compiles is found in a text. -/
structure Regexp where
  /-- `regexp.Compile(expr)` returns a nil error. -/
  Compile : Str → Bool
  /-- The compiled pattern has a match in the text. -/
  Match : Str → Str → Bool

/-- Go `regexp.MatchString(pattern, s)`: `(matched, err == nil)`.  When the
pattern does not compile the result is `(false, err)`. -/
def Regexp.MatchString (re : Regexp) (pattern s : Str) : Bool × Bool :=
  if re.Compile pattern then (re.Match pattern s, true) else (false, false)

namespace time

/-- The value of a decimal digit character. -/
def digit (c : Char) : Option Nat :=
  if '0' ≤ c ∧ c ≤ '9' then some (c.toNat - '0'.toNat) else none

/-- Leap years of the proleptic Gregorian calendar. -/
def isLeap (year : Nat) : Bool :=
  year % 4 == 0 && (year % 100 != 0 || year % 400 == 0)

/-- Go `daysIn(month, year)`. -/
def daysIn (month year : Nat) : Nat :=
  if month = 2 then (if isLeap year then 29 else 28)
  else if month = 4 ∨ month = 6 ∨ month = 9 ∨ month = 11 then 30
  else 31

/-- Days of a non-leap year before the first day of `month` (1 to 12). -/
def daysBefore (month : Nat) : Nat :=
  ([0, 31, 59, 90, 120, 151, 181, 212, 243, 273, 304, 334] : List Nat).getD (month - 1) 0

/-- Days from 1970-01-01 to the given calendar day. -/
def daysSinceEpoch (year month day : Nat) : Int :=
  let y : Int := year
  let leapsBefore : Int := (y - 1) / 4 - (y - 1) / 100 + (y - 1) / 400 + 1
  365 * y + leapsBefore + daysBefore month
    + (if 2 < month ∧ isLeap year then 1 else 0) + (day - 1 : Int) - 719528

/-- Nanoseconds in a day. -/
def nanosPerDay : Int := 86400 * 1000000000

/-- Go `time.Date(year, month, day, 0, 0, 0, 0, time.UTC)`. -/
def Date (year month day : Nat) : Time := daysSinceEpoch year month day * nanosPerDay

/-- Go `time.Parse("2006-01-02", value)`: four digits, `-`, two digits, `-`,
two digits, nothing else; the month in 1..12 and the day in 1..daysIn.  The
result is midnight UTC of that day; `none` is a non-nil error. -/
def Parse (value : Str) : Option Time :=
  match value with
  | [y1, y2, y3, y4, '-', m1, m2, '-', d1, d2] =>
    match digit y1, digit y2, digit y3, digit y4, digit m1, digit m2, digit d1, digit d2 with
    | some a, some b, some c, some d, some e, some f, some g, some h =>
      let year := 1000 * a + 100 * b + 10 * c + d
      let month := 10 * e + f
      let day := 10 * g + h
      if month = 0 ∨ 12 < month then none
      else if day < 1 ∨ daysIn month year < day then none
      else some (Date year month day)
    | _, _, _, _, _, _, _, _ => none
  | _ => none

end time

/-! ## The data model (`miniflux.app/v2/internal/model`) -/

/-- The fields of `model.Entry` the filters read. -/
structure Entry where
  Title : Str
  URL : Str
  CommentsURL : Str
  Content : Str
  Author : Str
  Tags : List Str
  Date : Time
  deriving DecidableEq

/-- The fields of `model.Feed` the filters read. -/
structure Feed where
  ID : Int
  FeedURL : Str
  BlocklistRules : Str
  KeeplistRules : Str
  deriving DecidableEq

/-- The fields of `model.User` the filters read. -/
structure User where
  BlockFilterEntryRules : Str
  KeepFilterEntryRules : Str
  deriving DecidableEq

/-- One `slog.Debug` record of the matcher. -/
structure LogRecord where
  msg : Str
  entry_url : Str
  feed_id : Int
  feed_url : Str
  rule : Str
  deriving DecidableEq

/-! ## `filters.go` -/

/-- Go `isDateMatchingPattern(entryDate, pattern)`, with `time.Now()` read as
`now`. -/
def isDateMatchingPattern (now : Time) (entryDate : Time) (pattern : Str) : Bool :=
  if pattern = "future".toList then
    decide (entryDate > now)
  else
    let parts := strings.SplitN pattern ':' 2
    if parts.length ≠ 2 then false
    else
      let operator := parts.getD 0 []
      let dateStr := parts.getD 1 []
      if operator = "before".toList then
        match time.Parse dateStr with
        | none => false
        | some targetDate => decide (entryDate < targetDate)
      else if operator = "after".toList then
        match time.Parse dateStr with
        | none => false
        | some targetDate => decide (entryDate > targetDate)
      else if operator = "between".toList then
        let dates := strings.Split dateStr ','
        if dates.length ≠ 2 then false
        else
          match time.Parse (dates.getD 0 []), time.Parse (dates.getD 1 []) with
          | some startDate, some endDate =>
            decide (entryDate > startDate) && decide (entryDate < endDate)
          | _, _ => false
      else false

/-- The `for _, rule := range rules` loop of `isBlockedByRules`.  `none` is the
index-out-of-range panic of `parts[1]`; otherwise the verdict and the records
logged. -/
def isBlockedByRules.loop (re : Regexp) (now : Time) (feed : Feed) (entry : Entry) :
    List Str → Option (Bool × List LogRecord)
  | [] => some (false, [])
  | rule :: rules =>
    let parts := strings.SplitN rule '=' 2
    let matched : Option Bool :=
      match parts[0]? with
      | none => none
      | some field =>
        if field = "EntryDate".toList then
          (parts[1]?).map (fun datePattern => isDateMatchingPattern now entry.Date datePattern)
        else if field = "EntryTitle".toList then
          (parts[1]?).map (fun pattern => (re.MatchString pattern entry.Title).1)
        else if field = "EntryURL".toList then
          (parts[1]?).map (fun pattern => (re.MatchString pattern entry.URL).1)
        else if field = "EntryCommentsURL".toList then
          (parts[1]?).map (fun pattern => (re.MatchString pattern entry.CommentsURL).1)
        else if field = "EntryContent".toList then
          (parts[1]?).map (fun pattern => (re.MatchString pattern entry.Content).1)
        else if field = "EntryAuthor".toList then
          (parts[1]?).map (fun pattern => (re.MatchString pattern entry.Author).1)
        else if field = "EntryTag".toList then
          slices.ContainsFunc entry.Tags
            (fun tag => (parts[1]?).map (fun pattern => (re.MatchString pattern tag).1))
        else some false
    match matched with
    | none => none
    | some true =>
      some (true, [LogRecord.mk "Blocking entry based on rule".toList entry.URL feed.ID feed.FeedURL rule])
    | some false => isBlockedByRules.loop re now feed entry rules

/-- Go `isBlockedByRules(feed, entry, all_rules)`. -/
def isBlockedByRules (re : Regexp) (now : Time) (feed : Feed) (entry : Entry)
    (all_rules : Str) : Option (Bool × List LogRecord) :=
  if all_rules = [] then some (false, [])
  else isBlockedByRules.loop re now feed entry (strings.Split all_rules '\n')

/-- Go `isBlockedEntry(feed, entry, user)`: the short-circuit `||` of the two
calls. -/
def isBlockedEntry (re : Regexp) (now : Time) (feed : Feed) (entry : Entry)
    (user : User) : Option (Bool × List LogRecord) :=
  match isBlockedByRules re now feed entry user.BlockFilterEntryRules with
  | none => none
  | some (true, log) => some (true, log)
  | some (false, log) =>
    match isBlockedByRules re now feed entry feed.BlocklistRules with
    | none => none
    | some (b, log2) => some (b, log ++ log2)

/-- The `for _, rule := range rules` loop of `isAllowedByRules`.  `none` is the
index-out-of-range panic of `parts[1]`; otherwise the verdict and the records
logged. -/
def isAllowedByRules.loop (re : Regexp) (now : Time) (feed : Feed) (entry : Entry) :
    List Str → Option (Bool × List LogRecord)
  | [] => some (false, [])
  | rule :: rules =>
    let parts := strings.SplitN rule '=' 2
    let matched : Option Bool :=
      match parts[0]? with
      | none => none
      | some field =>
        if field = "EntryDate".toList then
          (parts[1]?).map (fun datePattern => isDateMatchingPattern now entry.Date datePattern)
        else if field = "EntryTitle".toList then
          (parts[1]?).map (fun pattern => (re.MatchString pattern entry.Title).1)
        else if field = "EntryURL".toList then
          (parts[1]?).map (fun pattern => (re.MatchString pattern entry.URL).1)
        else if field = "EntryCommentsURL".toList then
          (parts[1]?).map (fun pattern => (re.MatchString pattern entry.CommentsURL).1)
        else if field = "EntryContent".toList then
          (parts[1]?).map (fun pattern => (re.MatchString pattern entry.Content).1)
        else if field = "EntryAuthor".toList then
          (parts[1]?).map (fun pattern => (re.MatchString pattern entry.Author).1)
        else if field = "EntryTag".toList then
          slices.ContainsFunc entry.Tags
            (fun tag => (parts[1]?).map (fun pattern => (re.MatchString pattern tag).1))
        else some false
    match matched with
    | none => none
    | some true =>
      some (true, [LogRecord.mk "Allowing entry based on rule".toList entry.URL feed.ID feed.FeedURL rule])
    | some false => isAllowedByRules.loop re now feed entry rules

/-- Go `isAllowedByRules(feed, entry, all_rules)`. -/
def isAllowedByRules (re : Regexp) (now : Time) (feed : Feed) (entry : Entry)
    (all_rules : Str) : Option (Bool × List LogRecord) :=
  isAllowedByRules.loop re now feed entry (strings.Split all_rules '\n')

/-- Go `isAllowedEntry(feed, entry, user)`. -/
def isAllowedEntry (re : Regexp) (now : Time) (feed : Feed) (entry : Entry)
    (user : User) : Option (Bool × List LogRecord) :=
  if user.KeepFilterEntryRules ≠ [] then
    isAllowedByRules re now feed entry user.KeepFilterEntryRules
  else if feed.KeeplistRules ≠ [] then
    isAllowedByRules re now feed entry feed.KeeplistRules
  else some (true, [])

/-! ## `validator.go` -/

/-- An argument of a localized message (`any`): the code passes a line number
or a string. -/
inductive Arg where
  | int (n : Int)
  | str (s : Str)
  deriving DecidableEq

/-- Modelled from the spec: `locale.LocalizedError` and its constructor
`locale.NewLocalizedError(translationKey, translationArgs...)` are declared in
`internal/locale`, outside the files at hand.  An error is its kind key and the
arguments it carries (the line number and, for the field-name error, the
vocabulary as a display string). -/
structure LocalizedError where
  translationKey : Str
  translationArgs : List Arg
  deriving DecidableEq

/-- Modelled from the spec: the constructor of `LocalizedError` of
`internal/locale`, which stores the key and the arguments. -/
def NewLocalizedError (translationKey : Str) (translationArgs : List Arg) : LocalizedError :=
  LocalizedError.mk translationKey translationArgs

/-- Go `IsValidRegex(expr)`: the expression compiles. -/
def IsValidRegex (re : Regexp) (expr : Str) : Bool := re.Compile expr

/-- The local `fieldNames` of `isValidFilterRules`. -/
def fieldNames : List Str :=
  ["EntryTitle".toList, "EntryURL".toList, "EntryCommentsURL".toList, "EntryContent".toList,
    "EntryAuthor".toList, "EntryTag".toList, "EntryDate".toList]

/-- The `for i, rule := range rules` loop of `isValidFilterRules`, from index
`i` on.  `none` is the nil error. -/
def isValidFilterRules.loop (re : Regexp) (filterType : Str) :
    Nat → List Str → Option LocalizedError
  | _, [] => none
  | i, rule :: rules =>
    let idx := slices.IndexFunc fieldNames (fun fieldName => strings.HasPrefix rule fieldName)
    if idx = -1 then
      some (NewLocalizedError
        ("error.settings_".toList ++ filterType ++ "_rule_fieldname_invalid".toList)
        [Arg.int (i + 1),
          Arg.str ("'".toList ++ strings.Join fieldNames "', '".toList ++ "'".toList)])
    else
      let fieldName := fieldNames.getD idx.toNat []
      let fieldRegEx := (strings.CutPrefix rule fieldName).1
      if !strings.HasPrefix fieldRegEx "=".toList then
        some (NewLocalizedError
          ("error.settings_".toList ++ filterType ++ "_rule_separator_required".toList)
          [Arg.int (i + 1)])
      else
        let fieldRegEx := strings.TrimPrefix fieldRegEx "=".toList
        if fieldRegEx = [] then
          some (NewLocalizedError
            ("error.settings_".toList ++ filterType ++ "_rule_regex_required".toList)
            [Arg.int (i + 1)])
        else if !IsValidRegex re fieldRegEx then
          some (NewLocalizedError
            ("error.settings_".toList ++ filterType ++ "_rule_invalid_regex".toList)
            [Arg.int (i + 1)])
        else isValidFilterRules.loop re filterType (i + 1) rules

/-- Go `isValidFilterRules(filterEntryRules, filterType)`. -/
def isValidFilterRules (re : Regexp) (filterEntryRules filterType : Str) :
    Option LocalizedError :=
  isValidFilterRules.loop re filterType 0 (strings.Split filterEntryRules '\n')

/-! ## Definitions used to state the properties -/

/-- A regular expression engine for the examples, covering literal patterns with
optional anchors: a pattern with `(` does not compile, `^lit$` is found in the
text `lit` only, `^lit` in the texts that start with `lit`, and any other
pattern in the texts that contain it. -/
def exampleRegexp : Regexp where
  Compile := fun p => !p.contains '('
  Match := fun p s =>
    match p with
    | '^' :: rest =>
      if rest.getLast? = some '$' then s == rest.dropLast else rest.isPrefixOf s
    | _ => s.tails.any (fun t => p.isPrefixOf t)

/-- Evaluation of one rule line: the body of the loop of `isBlockedByRules` and
of `isAllowedByRules` up to the value of `match`.  `none` is the panic of
`parts[1]`. -/
def matchLine (re : Regexp) (now : Time) (entry : Entry) (rule : Str) : Option Bool :=
  let parts := strings.SplitN rule '=' 2
  match parts[0]? with
  | none => none
  | some field =>
    if field = "EntryDate".toList then
      (parts[1]?).map (fun datePattern => isDateMatchingPattern now entry.Date datePattern)
    else if field = "EntryTitle".toList then
      (parts[1]?).map (fun pattern => (re.MatchString pattern entry.Title).1)
    else if field = "EntryURL".toList then
      (parts[1]?).map (fun pattern => (re.MatchString pattern entry.URL).1)
    else if field = "EntryCommentsURL".toList then
      (parts[1]?).map (fun pattern => (re.MatchString pattern entry.CommentsURL).1)
    else if field = "EntryContent".toList then
      (parts[1]?).map (fun pattern => (re.MatchString pattern entry.Content).1)
    else if field = "EntryAuthor".toList then
      (parts[1]?).map (fun pattern => (re.MatchString pattern entry.Author).1)
    else if field = "EntryTag".toList then
      slices.ContainsFunc entry.Tags
        (fun tag => (parts[1]?).map (fun pattern => (re.MatchString pattern tag).1))
    else some false

/-- The first rule line that matches, evaluating the lines in order: `none` when
a line panics first, `some none` when every line evaluates to no match. -/
def firstMatch (re : Regexp) (now : Time) (entry : Entry) : List Str → Option (Option Str)
  | [] => some none
  | rule :: rules =>
    match matchLine re now entry rule with
    | none => none
    | some true => some (some rule)
    | some false => firstMatch re now entry rules

/-- The verdict and log of a rule-set evaluation whose firing rule is `fired`. -/
def outcome (msg : Str) (feed : Feed) (entry : Entry) (fired : Option Str) :
    Bool × List LogRecord :=
  match fired with
  | none => (false, [])
  | some rule => (true, [LogRecord.mk msg entry.URL feed.ID feed.FeedURL rule])

/-- A rule line that passes the four checks of the validator: a field name of
the vocabulary, the separator, a non-empty pattern, and the pattern compiles. -/
def WellFormedLine (re : Regexp) (line : Str) : Prop :=
  ∃ F ∈ fieldNames, ∃ p : Str, line = F ++ '=' :: p ∧ p ≠ [] ∧ re.Compile p = true

/-- The error kinds of the validator. -/
inductive RuleErrorKind where
  | FieldNameInvalid
  | SeparatorRequired
  | PatternRequired
  | InvalidRegex
  deriving DecidableEq

/-- The vocabulary as the display string of the field-name error. -/
def fieldNamesDisplay : Str :=
  "'EntryTitle', 'EntryURL', 'EntryCommentsURL', 'EntryContent', 'EntryAuthor', 'EntryTag', 'EntryDate'".toList

/-- The error of a kind, for the rule-set kind `k`, at a 1-based line number. -/
def ruleError (k : Str) (kind : RuleErrorKind) (lineNumber : Nat) : LocalizedError :=
  match kind with
  | .FieldNameInvalid =>
    ⟨"error.settings_".toList ++ k ++ "_rule_fieldname_invalid".toList,
      [Arg.int lineNumber, Arg.str fieldNamesDisplay]⟩
  | .SeparatorRequired =>
    ⟨"error.settings_".toList ++ k ++ "_rule_separator_required".toList, [Arg.int lineNumber]⟩
  | .PatternRequired =>
    ⟨"error.settings_".toList ++ k ++ "_rule_regex_required".toList, [Arg.int lineNumber]⟩
  | .InvalidRegex =>
    ⟨"error.settings_".toList ++ k ++ "_rule_invalid_regex".toList, [Arg.int lineNumber]⟩

/-- The four checks on one line, in the order of the validator: the first
field name of the vocabulary the line starts with, the separator after it, the
non-empty pattern, the pattern compiles.  `none`: the line passes. -/
def lineError (re : Regexp) (rule : Str) : Option RuleErrorKind :=
  match fieldNames.find? (fun fieldName => fieldName.isPrefixOf rule) with
  | none => some .FieldNameInvalid
  | some fieldName =>
    match rule.drop fieldName.length with
    | '=' :: p =>
      if p = [] then some .PatternRequired
      else if re.Compile p then none
      else some .InvalidRegex
    | _ => some .SeparatorRequired

/-- An entry dated 2024-06-15 (midnight UTC) with the tags `news` and `tech`. -/
def entryJune : Entry where
  Title := "Release notes".toList
  URL := "https://example.org/post".toList
  CommentsURL := []
  Content := "text".toList
  Author := "alice".toList
  Tags := ["news".toList, "tech".toList]
  Date := time.Date 2024 6 15

/-- A feed with the given block rules and keep rules. -/
def feedWith (blockRules keepRules : Str) : Feed where
  ID := 7
  FeedURL := "https://example.org/feed.xml".toList
  BlocklistRules := blockRules
  KeeplistRules := keepRules

/-- The date predicates of the rule language, with their dates as instants
(midnight UTC of the calendar day). -/
inductive DatePredicate where
  | future
  | before (d : Time)
  | after (d : Time)
  | between (d1 d2 : Time)

/-- Reference semantics of a date predicate for an entry dated `t`, evaluated at
`now`: all comparisons are strict. -/
def dateMatchesRef (now t : Time) : DatePredicate → Bool
  | .future => decide (t > now)
  | .before d => decide (t < d)
  | .after d => decide (t > d)
  | .between d1 d2 => decide (d1 < t ∧ t < d2)

/-- A rule set of three lines: the first is valid, the second has an unknown
field name, the third has a pattern that `exampleRegexp` does not compile. -/
def exampleRules : Str := "EntryTitle=foo\nBadField=x\nEntryURL=(".toList

/-- The spec's `MatchLine(entry, fieldName, pattern)`: `EntryDate` goes to the
date predicate, the five text fields to a regular expression search in the
field, `EntryTag` to a search in any tag, and an unknown field name is no match. -/
def fieldMatches (re : Regexp) (now : Time) (entry : Entry) (fieldName pattern : Str) : Bool :=
  if fieldName = "EntryDate".toList then isDateMatchingPattern now entry.Date pattern
  else if fieldName = "EntryTitle".toList then (re.MatchString pattern entry.Title).1
  else if fieldName = "EntryURL".toList then (re.MatchString pattern entry.URL).1
  else if fieldName = "EntryCommentsURL".toList then (re.MatchString pattern entry.CommentsURL).1
  else if fieldName = "EntryContent".toList then (re.MatchString pattern entry.Content).1
  else if fieldName = "EntryAuthor".toList then (re.MatchString pattern entry.Author).1
  else if fieldName = "EntryTag".toList then
    entry.Tags.any (fun tag => (re.MatchString pattern tag).1)
  else false

/-- The six field names whose pattern is a regular expression. -/
def regexFieldNames : List Str :=
  ["EntryTitle".toList, "EntryURL".toList, "EntryCommentsURL".toList, "EntryContent".toList,
    "EntryAuthor".toList, "EntryTag".toList]

/-- The text of a line before its first `=`: the whole line when it has none. -/
def textBeforeSeparator (line : Str) : Str := line.takeWhile (fun c => c != '=')

/-- A rule-set string that is empty or each of whose lines contains `=`. -/
def linesHaveSeparator (rules : Str) : Prop :=
  rules = [] ∨ ∀ line ∈ strings.Split rules '\n', '=' ∈ line

/-- The verdict of an evaluation and the rule lines it logged; `none` is a
panic. -/
def verdictAndRules (result : Option (Bool × List LogRecord)) : Option (Bool × List Str) :=
  result.map (fun r => (r.1, r.2.map (fun record => record.rule)))

/-- The verdict of an evaluation; `none` is a panic. -/
def verdict (result : Option (Bool × List LogRecord)) : Option Bool :=
  result.map (fun r => r.1)

/-- A block rule set of three lines: the first does not match `entryJune`, the
second matches it, the third is a field name without separator. -/
def exampleBlockRules : Str :=
  "EntryDate=before:2000-01-01\nEntryDate=after:2000-01-01\nEntryTitle".toList

/-! ## Splitting -/

namespace strings

theorem Split_ne_nil (s : Str) (sep : Char) : Split s sep ≠ [] := by
  induction s with
  | nil => simp [Split]
  | cons c cs ih =>
    unfold Split
    split
    · simp
    · split <;> simp

theorem Split_cons_sep (cs : Str) (sep : Char) : Split (sep :: cs) sep = [] :: Split cs sep := by
  simp [Split]

theorem Split_cons_ne (c : Char) (cs : Str) (sep : Char) (h : c ≠ sep) :
    Split (c :: cs) sep = (c :: (Split cs sep).headD []) :: (Split cs sep).tail := by
  have hne := Split_ne_nil cs sep
  rw [Split, if_neg h]
  cases hs : Split cs sep with
  | nil => exact absurd hs hne
  | cons a l => simp

theorem Split_append_sep (a b : Str) (sep : Char) (h : sep ∉ a) :
    Split (a ++ sep :: b) sep = a :: Split b sep := by
  induction a with
  | nil => simp [Split]
  | cons c cs ih =>
    have hc : c ≠ sep := fun e => h (by simp [e])
    have hcs : sep ∉ cs := fun e => h (by simp [e])
    rw [List.cons_append, Split_cons_ne _ _ _ hc, ih hcs]
    simp

theorem Split_of_not_mem (a : Str) (sep : Char) (h : sep ∉ a) : Split a sep = [a] := by
  induction a with
  | nil => simp [Split]
  | cons c cs ih =>
    have hc : c ≠ sep := fun e => h (by simp [e])
    have hcs : sep ∉ cs := fun e => h (by simp [e])
    rw [Split_cons_ne _ _ _ hc, ih hcs]
    simp

theorem span_ne_of_not_mem (a : Str) (sep : Char) (h : sep ∉ a) :
    a.span (fun c => c != sep) = (a, []) := by
  rw [List.span_eq_take_drop]
  induction a with
  | nil => simp
  | cons c cs ih =>
    have hc : c ≠ sep := fun e => h (by simp [e])
    have hcs : sep ∉ cs := fun e => h (by simp [e])
    have := ih hcs
    simp only [Prod.mk.injEq] at this
    simp [List.takeWhile_cons, List.dropWhile_cons, hc, this.1, this.2]

theorem span_ne_append_sep (a b : Str) (sep : Char) (h : sep ∉ a) :
    (a ++ sep :: b).span (fun c => c != sep) = (a, sep :: b) := by
  rw [List.span_eq_take_drop]
  induction a with
  | nil => simp [List.takeWhile_cons, List.dropWhile_cons]
  | cons c cs ih =>
    have hc : c ≠ sep := fun e => h (by simp [e])
    have hcs : sep ∉ cs := fun e => h (by simp [e])
    have := ih hcs
    simp only [Prod.mk.injEq] at this
    simp [List.takeWhile_cons, List.dropWhile_cons, hc, this.1, this.2]

theorem SplitN_two_of_not_mem (a : Str) (sep : Char) (h : sep ∉ a) : SplitN a sep 2 = [a] := by
  rw [SplitN, span_ne_of_not_mem a sep h]

theorem SplitN_two_append_sep (a b : Str) (sep : Char) (h : sep ∉ a) :
    SplitN (a ++ sep :: b) sep 2 = [a, b] := by
  rw [SplitN, span_ne_append_sep a b sep h]
  simp [SplitN]

/-- Every string either has no separator or splits at its first one. -/
theorem exists_first_sep (s : Str) (sep : Char) :
    sep ∉ s ∨ ∃ a b, s = a ++ sep :: b ∧ sep ∉ a := by
  induction s with
  | nil => left; simp
  | cons c cs ih =>
    by_cases hc : c = sep
    · right; exact ⟨[], cs, by simp [hc], by simp⟩
    · rcases ih with h | ⟨a, b, hab, ha⟩
      · left
        intro hm
        rcases List.mem_cons.1 hm with e | e
        · exact hc e.symm
        · exact h e
      · right
        refine ⟨c :: a, b, by simp [hab], ?_⟩
        intro hm
        rcases List.mem_cons.1 hm with e | e
        · exact hc e.symm
        · exact ha e

end strings

/-! ## The two loops of the matcher, line by line -/

theorem isBlockedByRules_loop_cons (re : Regexp) (now : Time) (feed : Feed) (entry : Entry)
    (rule : Str) (rules : List Str) :
    isBlockedByRules.loop re now feed entry (rule :: rules) =
      match matchLine re now entry rule with
      | none => none
      | some true =>
        some (true, [LogRecord.mk "Blocking entry based on rule".toList entry.URL feed.ID
          feed.FeedURL rule])
      | some false => isBlockedByRules.loop re now feed entry rules := rfl

theorem isAllowedByRules_loop_cons (re : Regexp) (now : Time) (feed : Feed) (entry : Entry)
    (rule : Str) (rules : List Str) :
    isAllowedByRules.loop re now feed entry (rule :: rules) =
      match matchLine re now entry rule with
      | none => none
      | some true =>
        some (true, [LogRecord.mk "Allowing entry based on rule".toList entry.URL feed.ID
          feed.FeedURL rule])
      | some false => isAllowedByRules.loop re now feed entry rules := rfl

theorem isBlockedByRules_loop_eq (re : Regexp) (now : Time) (feed : Feed) (entry : Entry)
    (rules : List Str) :
    isBlockedByRules.loop re now feed entry rules =
      (firstMatch re now entry rules).map
        (outcome "Blocking entry based on rule".toList feed entry) := by
  induction rules with
  | nil => rfl
  | cons rule rules ih =>
    rw [isBlockedByRules_loop_cons, firstMatch, ih]
    cases matchLine re now entry rule with
    | none => rfl
    | some b => cases b <;> rfl

theorem isAllowedByRules_loop_eq (re : Regexp) (now : Time) (feed : Feed) (entry : Entry)
    (rules : List Str) :
    isAllowedByRules.loop re now feed entry rules =
      (firstMatch re now entry rules).map
        (outcome "Allowing entry based on rule".toList feed entry) := by
  induction rules with
  | nil => rfl
  | cons rule rules ih =>
    rw [isAllowedByRules_loop_cons, firstMatch, ih]
    cases matchLine re now entry rule with
    | none => rfl
    | some b => cases b <;> rfl

theorem firstMatch_none_of_all_false (re : Regexp) (now : Time) (entry : Entry)
    (rules : List Str) (h : ∀ line ∈ rules, matchLine re now entry line = some false) :
    firstMatch re now entry rules = some none := by
  induction rules with
  | nil => rfl
  | cons rule rules ih =>
    rw [firstMatch, h rule (by simp)]
    exact ih (fun line hl => h line (by simp [hl]))


/-! ## C1: precedence of the keep rules -/

/-- C1: `isAllowedEntry` returns what `isAllowedByRules` returns on the user's
keep rules when these are non-empty, and then the feed's rule strings have no
influence on the result; otherwise what `isAllowedByRules` returns on the feed's
keep rules when these are non-empty; otherwise `true`.  In particular, when the
user's keep rules are non-empty and each of their lines evaluates to "no match",
the verdict is `false` whatever the feed's keep rules are. -/
theorem C1_isAllowedEntry_precedence (re : Regexp) (now : Time) (feed : Feed) (entry : Entry)
    (user : User) :
    (user.KeepFilterEntryRules ≠ [] →
      isAllowedEntry re now feed entry user =
        isAllowedByRules re now feed entry user.KeepFilterEntryRules) ∧
    (user.KeepFilterEntryRules = [] → feed.KeeplistRules ≠ [] →
      isAllowedEntry re now feed entry user =
        isAllowedByRules re now feed entry feed.KeeplistRules) ∧
    (user.KeepFilterEntryRules = [] → feed.KeeplistRules = [] →
      isAllowedEntry re now feed entry user = some (true, [])) ∧
    (user.KeepFilterEntryRules ≠ [] → ∀ blockRules keepRules : Str,
      isAllowedEntry re now { feed with BlocklistRules := blockRules, KeeplistRules := keepRules }
          entry user =
        isAllowedEntry re now feed entry user) ∧
    (user.KeepFilterEntryRules ≠ [] →
      (∀ line ∈ strings.Split user.KeepFilterEntryRules '\n',
        matchLine re now entry line = some false) →
      isAllowedEntry re now feed entry user = some (false, [])) := by
  refine ⟨?_, ?_, ?_, ?_, ?_⟩
  · intro h
    simp [isAllowedEntry, h]
  · intro h1 h2
    simp [isAllowedEntry, h1, h2]
  · intro h1 h2
    simp [isAllowedEntry, h1, h2]
  · intro h blockRules keepRules
    simp only [isAllowedEntry, h, ne_eq, not_false_eq_true, if_true, isAllowedByRules,
      isAllowedByRules_loop_eq]
    rfl
  · intro h hall
    simp only [isAllowedEntry, h, ne_eq, not_false_eq_true, if_true, isAllowedByRules,
      isAllowedByRules_loop_eq, firstMatch_none_of_all_false re now entry _ hall]
    rfl

/-- C1, at an entry dated 2024-06-15: the user's keep rule `before:2000-01-01`
does not match, so the entry is not kept, although the feed's keep rule
`after:2000-01-01` matches. -/
theorem C1_isAllowedEntry_precedence_witness :
    matchLine exampleRegexp 0 entryJune "EntryDate=after:2000-01-01".toList = some true ∧
    isAllowedEntry exampleRegexp 0 (feedWith [] "EntryDate=after:2000-01-01".toList) entryJune
      ⟨[], "EntryDate=before:2000-01-01".toList⟩ = some (false, []) :=
  ⟨by decide,
    (C1_isAllowedEntry_precedence exampleRegexp 0 (feedWith [] "EntryDate=after:2000-01-01".toList)
      entryJune ⟨[], "EntryDate=before:2000-01-01".toList⟩).2.2.2.2 (by decide) (by decide)⟩

/-! ## The verdict of a rule set -/

theorem matchLine_nil (re : Regexp) (now : Time) (entry : Entry) :
    matchLine re now entry [] = some false := rfl

theorem isAllowedByRules_eq (re : Regexp) (now : Time) (feed : Feed) (entry : Entry)
    (all_rules : Str) :
    isAllowedByRules re now feed entry all_rules =
      (firstMatch re now entry (strings.Split all_rules '\n')).map
        (outcome "Allowing entry based on rule".toList feed entry) := by
  rw [isAllowedByRules, isAllowedByRules_loop_eq]

theorem isBlockedByRules_eq (re : Regexp) (now : Time) (feed : Feed) (entry : Entry)
    (all_rules : Str) :
    isBlockedByRules re now feed entry all_rules =
      (firstMatch re now entry (strings.Split all_rules '\n')).map
        (outcome "Blocking entry based on rule".toList feed entry) := by
  rw [isBlockedByRules]
  split
  · next h => subst h; rfl
  · rw [isBlockedByRules_loop_eq]

theorem firstMatch_some_none_iff (re : Regexp) (now : Time) (entry : Entry) (rules : List Str) :
    firstMatch re now entry rules = some none ↔
      ∀ line ∈ rules, matchLine re now entry line = some false := by
  induction rules with
  | nil => simp [firstMatch]
  | cons rule rules ih =>
    rw [firstMatch]
    cases h : matchLine re now entry rule with
    | none => simp [h]
    | some b =>
      cases b
      · simp [h, ih]
      · simp [h]

/-- When a line fires, it matches, it is preceded by lines that evaluate to no
match only, and it is the line at the smallest such position. -/
theorem firstMatch_some_some_iff (re : Regexp) (now : Time) (entry : Entry) (rules : List Str)
    (rule : Str) :
    firstMatch re now entry rules = some (some rule) ↔
      ∃ pre post, rules = pre ++ rule :: post ∧
        (∀ line ∈ pre, matchLine re now entry line = some false) ∧
        matchLine re now entry rule = some true := by
  induction rules with
  | nil => simp [firstMatch]
  | cons r rules ih =>
    rw [firstMatch]
    cases h : matchLine re now entry r with
    | none =>
      refine ⟨fun e => absurd e (by simp), ?_⟩
      rintro ⟨pre, post, hpre, hall, hm⟩
      cases pre with
      | nil =>
        simp only [List.nil_append, List.cons.injEq] at hpre
        rw [← hpre.1, h] at hm
        exact absurd hm (by simp)
      | cons a pre =>
        simp only [List.cons_append, List.cons.injEq] at hpre
        have := hall a (by simp)
        rw [← hpre.1, h] at this
        exact absurd this (by simp)
    | some b =>
      cases b
      · simp only [ih]
        constructor
        · rintro ⟨pre, post, hpre, hall, hm⟩
          refine ⟨r :: pre, post, by simp [hpre], ?_, hm⟩
          intro line hl
          rcases List.mem_cons.1 hl with e | e
          · rw [e]; exact h
          · exact hall line e
        · rintro ⟨pre, post, hpre, hall, hm⟩
          cases pre with
          | nil =>
            simp only [List.nil_append, List.cons.injEq] at hpre
            rw [← hpre.1, h] at hm
            exact absurd hm (by simp)
          | cons a pre =>
            simp only [List.cons_append, List.cons.injEq] at hpre
            exact ⟨pre, post, hpre.2, fun line hl => hall line (by simp [hl]), hm⟩
      · simp only [Option.some.injEq]
        constructor
        · intro e
          exact ⟨[], rules, by simp [e], by simp, by rw [← e]; exact h⟩
        · rintro ⟨pre, post, hpre, hall, hm⟩
          cases pre with
          | nil =>
            simp only [List.nil_append, List.cons.injEq] at hpre
            exact hpre.1
          | cons a pre =>
            simp only [List.cons_append, List.cons.injEq] at hpre
            have := hall a (by simp)
            rw [← hpre.1, h] at this
            exact absurd this (by simp)

/-! ## C2, C3: a field name without separator -/

/-- C2: at an entry dated 2024-06-15, with the user's block rules `EntryTitle`
(a field name without separator) and the feed's block rules
`EntryDate=after:2000-01-01`: the feed's rule set contains a line that matches
the entry, and `isBlockedEntry` does not return `true`: the evaluation of the
user's rules panics on `parts[1]`. -/
theorem C2_isBlockedEntry_panics_before_feed_rules (re : Regexp) (now : Time) :
    (∃ line ∈ strings.Split (feedWith "EntryDate=after:2000-01-01".toList []).BlocklistRules '\n',
      matchLine re now entryJune line = some true) ∧
    isBlockedEntry re now (feedWith "EntryDate=after:2000-01-01".toList []) entryJune
      ⟨"EntryTitle".toList, []⟩ = none :=
  ⟨⟨"EntryDate=after:2000-01-01".toList, by decide, rfl⟩, rfl⟩

/-- C3: for every entry, the rule set `EntryTitle` (one line, a field name, no
`=`) makes `isBlockedByRules` and `isAllowedByRules` panic: `SplitN` returns one
part and `parts[1]` is out of range.  A line without `=` that is no field name,
such as `foo`, evaluates to no match. -/
theorem C3_bare_field_name_panics (re : Regexp) (now : Time) (feed : Feed) (entry : Entry) :
    strings.SplitN "EntryTitle".toList '=' 2 = ["EntryTitle".toList] ∧
    isBlockedByRules re now feed entry "EntryTitle".toList = none ∧
    isAllowedByRules re now feed entry "EntryTitle".toList = none ∧
    isBlockedByRules re now feed entry "foo".toList = some (false, []) ∧
    isAllowedByRules re now feed entry "foo".toList = some (false, []) :=
  ⟨rfl, rfl, rfl, rfl, rfl⟩

/-! ## C9: no rules -/

/-- C9: when the user's and the feed's rule strings are empty, `isBlockedEntry`
returns `false` and `isAllowedEntry` returns `true`, and nothing is logged. -/
theorem C9_empty_rules_default (re : Regexp) (now : Time) (feed : Feed) (entry : Entry)
    (user : User) :
    (user.BlockFilterEntryRules = [] → feed.BlocklistRules = [] →
      isBlockedEntry re now feed entry user = some (false, [])) ∧
    (user.KeepFilterEntryRules = [] → feed.KeeplistRules = [] →
      isAllowedEntry re now feed entry user = some (true, [])) := by
  constructor
  · intro h1 h2
    simp [isBlockedEntry, isBlockedByRules, h1, h2]
  · intro h1 h2
    simp [isAllowedEntry, h1, h2]

/-- C9, at a feed and a user without rules. -/
theorem C9_empty_rules_default_witness :
    isBlockedEntry exampleRegexp 0 (feedWith [] []) entryJune ⟨[], []⟩ = some (false, []) ∧
    isAllowedEntry exampleRegexp 0 (feedWith [] []) entryJune ⟨[], []⟩ = some (true, []) :=
  ⟨(C9_empty_rules_default exampleRegexp 0 (feedWith [] []) entryJune ⟨[], []⟩).1 rfl rfl,
    (C9_empty_rules_default exampleRegexp 0 (feedWith [] []) entryJune ⟨[], []⟩).2 rfl rfl⟩

/-! ## The validator, line by line -/

namespace slices

theorem IndexFunc_ge {α : Type} (s : List α) (f : α → Bool) : -1 ≤ IndexFunc s f := by
  induction s with
  | nil => simp [IndexFunc]
  | cons a rest ih =>
    unfold IndexFunc
    split
    · omega
    · simp only
      split <;> omega

theorem IndexFunc_eq_neg_one_iff {α : Type} (s : List α) (f : α → Bool) :
    IndexFunc s f = -1 ↔ s.find? f = none := by
  induction s with
  | nil => simp [IndexFunc]
  | cons a rest ih =>
    have hge := IndexFunc_ge rest f
    unfold IndexFunc
    cases hfa : f a with
    | true => simp [List.find?, hfa]
    | false =>
      simp only [List.find?, hfa, Bool.false_eq_true, if_false]
      rw [← ih]
      constructor
      · intro h
        by_contra hne
        rw [if_neg hne] at h
        omega
      · intro h
        rw [if_pos h]

theorem getD_IndexFunc {α : Type} (s : List α) (f : α → Bool) (a d : α)
    (h : s.find? f = some a) : s.getD (IndexFunc s f).toNat d = a := by
  induction s with
  | nil => simp at h
  | cons b rest ih =>
    unfold IndexFunc
    cases hfb : f b with
    | true =>
      simp only [List.find?, hfb] at h
      simp only [Option.some.injEq] at h
      simp [h]
    | false =>
      simp only [List.find?, hfb] at h
      have hne : IndexFunc rest f ≠ -1 := by
        rw [Ne, IndexFunc_eq_neg_one_iff, h]
        simp
      have hge := IndexFunc_ge rest f
      simp only [Bool.false_eq_true, if_false, if_neg hne]
      have e : (IndexFunc rest f + 1).toNat = (IndexFunc rest f).toNat + 1 := by omega
      rw [e, List.getD_cons_succ]
      exact ih h

end slices

theorem fieldNamesDisplay_eq :
    "'".toList ++ strings.Join fieldNames "', '".toList ++ "'".toList = fieldNamesDisplay := by
  decide

theorem isValidFilterRules_loop_cons (re : Regexp) (k : Str) (i : Nat) (rule : Str)
    (rules : List Str) :
    isValidFilterRules.loop re k i (rule :: rules) =
      match lineError re rule with
      | some kind => some (ruleError k kind (i + 1))
      | none => isValidFilterRules.loop re k (i + 1) rules := by
  rw [isValidFilterRules.loop, lineError]
  cases hf : fieldNames.find? (fun fieldName => fieldName.isPrefixOf rule) with
  | none =>
    have h1 : slices.IndexFunc fieldNames (fun fieldName => strings.HasPrefix rule fieldName)
        = -1 := (slices.IndexFunc_eq_neg_one_iff _ _).2 hf
    simp only [h1, if_true, fieldNamesDisplay_eq, ruleError, NewLocalizedError]
    simp
  | some F =>
    have h1 : slices.IndexFunc fieldNames (fun fieldName => strings.HasPrefix rule fieldName)
        ≠ -1 := by
      rw [Ne, slices.IndexFunc_eq_neg_one_iff]
      show ¬ fieldNames.find? (fun fieldName => fieldName.isPrefixOf rule) = none
      rw [hf]; simp
    have h2 : fieldNames.getD
        (slices.IndexFunc fieldNames (fun fieldName => strings.HasPrefix rule fieldName)).toNat []
        = F := slices.getD_IndexFunc _ _ _ _ hf
    have h3 : strings.HasPrefix rule F = true := List.find?_some hf
    simp only [h1, if_false, h2, strings.CutPrefix, h3, if_true]
    cases hd : rule.drop F.length with
    | nil => simp [strings.HasPrefix, ruleError, NewLocalizedError]
    | cons c p =>
      by_cases hc : c = '='
      · subst hc
        by_cases hp : p = []
        · simp [strings.HasPrefix, strings.TrimPrefix, ruleError, NewLocalizedError, hp]
        · cases hcomp : re.Compile p <;>
            simp [strings.HasPrefix, strings.TrimPrefix, ruleError, NewLocalizedError, hp,
              IsValidRegex, hcomp]
      · have hc2 : ¬ '=' = c := fun e => hc e.symm
        simp [strings.HasPrefix, ruleError, NewLocalizedError, hc, hc2]

theorem fieldNames_prefix_free :
    ∀ F ∈ fieldNames, ∀ G ∈ fieldNames, G.isPrefixOf F = true → G = F := by
  decide

theorem fieldNames_find_eq (rule F : Str) (hF : F ∈ fieldNames) (hp : F <+: rule) :
    fieldNames.find? (fun fieldName => fieldName.isPrefixOf rule) = some F := by
  cases hf : fieldNames.find? (fun fieldName => fieldName.isPrefixOf rule) with
  | none =>
    rw [List.find?_eq_none] at hf
    exact absurd (List.isPrefixOf_iff_prefix.2 hp) (hf F hF)
  | some G =>
    have hG : G ∈ fieldNames := List.mem_of_find?_eq_some hf
    have hGb : G.isPrefixOf rule = true :=
      @List.find?_some _ (fun fieldName => fieldName.isPrefixOf rule) G fieldNames hf
    have hGp : G <+: rule := List.isPrefixOf_iff_prefix.1 hGb
    rcases List.prefix_or_prefix_of_prefix hGp hp with h | h
    · rw [fieldNames_prefix_free F hF G hG (List.isPrefixOf_iff_prefix.2 h)]
    · rw [← fieldNames_prefix_free G hG F hF (List.isPrefixOf_iff_prefix.2 h)]

theorem lineError_fieldname (re : Regexp) (rule : Str)
    (h : ∀ F ∈ fieldNames, ¬ F <+: rule) : lineError re rule = some .FieldNameInvalid := by
  have hf : fieldNames.find? (fun fieldName => fieldName.isPrefixOf rule) = none := by
    rw [List.find?_eq_none]
    intro F hF hp
    exact h F hF (List.isPrefixOf_iff_prefix.1 hp)
  rw [lineError, hf]

theorem lineError_separator (re : Regexp) (F t : Str) (hF : F ∈ fieldNames)
    (ht : ∀ p, t ≠ '=' :: p) : lineError re (F ++ t) = some .SeparatorRequired := by
  rw [lineError, fieldNames_find_eq (F ++ t) F hF (List.prefix_append F t)]
  simp only [List.drop_left]

theorem lineError_pattern_required (re : Regexp) (F : Str) (hF : F ∈ fieldNames) :
    lineError re (F ++ ['=']) = some .PatternRequired := by
  rw [lineError, fieldNames_find_eq (F ++ ['=']) F hF (List.prefix_append F _)]
  simp [List.drop_left]

theorem lineError_pattern (re : Regexp) (F p : Str) (hF : F ∈ fieldNames) (hp : p ≠ []) :
    lineError re (F ++ '=' :: p) = if re.Compile p then none else some .InvalidRegex := by
  rw [lineError, fieldNames_find_eq (F ++ '=' :: p) F hF (List.prefix_append F _)]
  simp [List.drop_left, hp]

theorem lineError_eq_none_iff (re : Regexp) (rule : Str) :
    lineError re rule = none ↔ WellFormedLine re rule := by
  constructor
  · intro h
    rw [lineError] at h
    cases hf : fieldNames.find? (fun fieldName => fieldName.isPrefixOf rule) with
    | none => rw [hf] at h; simp at h
    | some F =>
      rw [hf] at h
      simp only at h
      have hF : F ∈ fieldNames := List.mem_of_find?_eq_some hf
      have hFb : F.isPrefixOf rule = true :=
        @List.find?_some _ (fun fieldName => fieldName.isPrefixOf rule) F fieldNames hf
      have hFp : F <+: rule := List.isPrefixOf_iff_prefix.1 hFb
      have hrule := List.prefix_iff_eq_append.1 hFp
      cases hd : rule.drop F.length with
      | nil => rw [hd] at h; simp at h
      | cons c p =>
        rw [hd] at h hrule
        by_cases hc : c = '='
        · subst hc
          by_cases hp : p = []
          · simp [hp] at h
          · cases hcomp : re.Compile p with
            | false => simp [hp, hcomp] at h
            | true => exact ⟨F, hF, p, hrule.symm, hp, hcomp⟩
        · exfalso
          revert h
          split
          · next h2 => simp only [List.cons.injEq] at h2; exact absurd h2.1 hc
          · simp
  · rintro ⟨F, hF, p, hrule, hp, hcomp⟩
    rw [hrule, lineError_pattern re F p hF hp, hcomp]
    rfl

/-! ## The validator on a rule set -/

theorem isValidFilterRules_loop_append (re : Regexp) (k : Str) (pre rest : List Str) (i : Nat)
    (h : ∀ l ∈ pre, lineError re l = none) :
    isValidFilterRules.loop re k i (pre ++ rest) =
      isValidFilterRules.loop re k (i + pre.length) rest := by
  induction pre generalizing i with
  | nil => rfl
  | cons l pre ih =>
    rw [List.cons_append, isValidFilterRules_loop_cons, h l (by simp)]
    simp only
    rw [ih (i + 1) (fun x hx => h x (by simp [hx]))]
    congr 1
    simp only [List.length_cons]
    omega

theorem isValidFilterRules_loop_first_error (re : Regexp) (k : Str) (pre : List Str) (rule : Str)
    (post : List Str) (i : Nat) (kind : RuleErrorKind)
    (h : ∀ l ∈ pre, lineError re l = none) (hr : lineError re rule = some kind) :
    isValidFilterRules.loop re k i (pre ++ rule :: post) =
      some (ruleError k kind (i + pre.length + 1)) := by
  rw [isValidFilterRules_loop_append re k pre _ i h, isValidFilterRules_loop_cons, hr]

/-- Every list of lines is accepted line by line, or has a first line with an
error. -/
theorem lines_first_error (re : Regexp) (lines : List Str) :
    (∀ l ∈ lines, lineError re l = none) ∨
    ∃ pre rule post kind, lines = pre ++ rule :: post ∧
      (∀ l ∈ pre, lineError re l = none) ∧ lineError re rule = some kind := by
  induction lines with
  | nil => left; simp
  | cons l lines ih =>
    cases hl : lineError re l with
    | some kind => right; exact ⟨[], l, lines, kind, rfl, by simp, hl⟩
    | none =>
      rcases ih with h | ⟨pre, rule, post, kind, e, hpre, hr⟩
      · left
        intro x hx
        rcases List.mem_cons.1 hx with e | e
        · rw [e]; exact hl
        · exact h x e
      · right
        refine ⟨l :: pre, rule, post, kind, by simp [e], ?_, hr⟩
        intro x hx
        rcases List.mem_cons.1 hx with e | e
        · rw [e]; exact hl
        · exact hpre x e

theorem isValidFilterRules_loop_all (re : Regexp) (k : Str) (lines : List Str) (i : Nat)
    (h : ∀ l ∈ lines, lineError re l = none) : isValidFilterRules.loop re k i lines = none := by
  have := isValidFilterRules_loop_append re k lines [] i h
  rw [List.append_nil] at this
  rw [this]
  rfl

/-! ## C4, C5, C6: the validator -/

/-- C4: `isValidFilterRules` returns nil exactly when every line of the rule set
(split on newline) is a field name of the vocabulary, then `=`, then a non-empty
pattern that compiles. -/
theorem C4_isValidFilterRules_nil_iff (re : Regexp) (s k : Str) :
    isValidFilterRules re s k = none ↔
      ∀ line ∈ strings.Split s '\n',
        ∃ F ∈ fieldNames, ∃ p : Str, line = F ++ '=' :: p ∧ p ≠ [] ∧ re.Compile p = true := by
  rw [isValidFilterRules]
  constructor
  · intro h line hline
    rcases lines_first_error re (strings.Split s '\n') with hall | ⟨pre, rule, post, kind, e, hpre, hr⟩
    · exact (lineError_eq_none_iff re line).1 (hall line hline)
    · rw [e, isValidFilterRules_loop_first_error re k pre rule post 0 kind hpre hr] at h
      exact absurd h (by simp)
  · intro h
    exact isValidFilterRules_loop_all re k _ 0
      (fun l hl => (lineError_eq_none_iff re l).2 (h l hl))

/-- C5: when `isValidFilterRules` returns an error, the error carries the
1-based number `n` of the first invalid line: `n` is between 1 and the number of
lines, the lines before line `n` pass the four checks, line `n` does not, and
every rule set with the same first `n` lines gets the same error. -/
theorem C5_first_invalid_line (re : Regexp) (s k : Str) (err : LocalizedError)
    (h : isValidFilterRules re s k = some err) :
    ∃ n : Nat, 1 ≤ n ∧ n ≤ (strings.Split s '\n').length ∧
      err.translationArgs.head? = some (Arg.int n) ∧
      (∀ j line, j + 1 < n → (strings.Split s '\n')[j]? = some line → WellFormedLine re line) ∧
      (∃ line, (strings.Split s '\n')[n - 1]? = some line ∧ ¬ WellFormedLine re line) ∧
      (∀ s2 : Str, (strings.Split s2 '\n').take n = (strings.Split s '\n').take n →
        isValidFilterRules re s2 k = some err) := by
  rw [isValidFilterRules] at h
  rcases lines_first_error re (strings.Split s '\n') with hall | ⟨pre, rule, post, kind, e, hpre, hr⟩
  · rw [isValidFilterRules_loop_all re k _ 0 hall] at h
    exact absurd h (by simp)
  · rw [e, isValidFilterRules_loop_first_error re k pre rule post 0 kind hpre hr] at h
    simp only [Option.some.injEq, Nat.zero_add] at h
    refine ⟨pre.length + 1, by omega, ?_, ?_, ?_, ?_, ?_⟩
    · rw [e]; simp
    · rw [← h]
      cases kind <;> simp [ruleError]
    · intro j line hj hline
      rw [e, List.getElem?_append_left (by omega)] at hline
      exact (lineError_eq_none_iff re line).1 (hpre line (List.getElem?_mem hline))
    · refine ⟨rule, ?_, ?_⟩
      · rw [e, Nat.add_sub_cancel, List.getElem?_append_right (Nat.le_refl _)]
        simp
      · intro hw
        rw [(lineError_eq_none_iff re rule).2 hw] at hr
        exact absurd hr (by simp)
    · intro s2 hs2
      have e2 : strings.Split s2 '\n' =
          pre ++ rule :: (strings.Split s2 '\n').drop (pre.length + 1) := by
        conv_lhs => rw [← List.take_append_drop (pre.length + 1) (strings.Split s2 '\n')]
        rw [hs2, e]
        simp [List.take_append_eq_append_take]
      rw [isValidFilterRules, e2,
        isValidFilterRules_loop_first_error re k pre rule _ 0 kind hpre hr]
      simp [h]

/-- C5, at the rule set `exampleRules` with kind `block`: the error is the
field-name error of line 2. -/
theorem C5_first_invalid_line_witness :
    isValidFilterRules exampleRegexp exampleRules "block".toList =
      some (ruleError "block".toList .FieldNameInvalid 2) ∧
    ∃ n : Nat, 1 ≤ n ∧ n ≤ (strings.Split exampleRules '\n').length ∧
      (ruleError "block".toList .FieldNameInvalid 2).translationArgs.head? = some (Arg.int n) ∧
      (∀ j line, j + 1 < n → (strings.Split exampleRules '\n')[j]? = some line →
        WellFormedLine exampleRegexp line) ∧
      (∃ line, (strings.Split exampleRules '\n')[n - 1]? = some line ∧
        ¬ WellFormedLine exampleRegexp line) ∧
      (∀ s2 : Str, (strings.Split s2 '\n').take n = (strings.Split exampleRules '\n').take n →
        isValidFilterRules exampleRegexp s2 "block".toList =
          some (ruleError "block".toList .FieldNameInvalid 2)) :=
  ⟨by decide,
    C5_first_invalid_line exampleRegexp exampleRules "block".toList
      (ruleError "block".toList .FieldNameInvalid 2) (by decide)⟩

/-- C6: the error of the first invalid line `rule` (line `pre.length + 1`) of a
rule set validated with kind `k` is decided by the first failing check, in this
order: (1) no field name of the vocabulary is a prefix of the line: key
`error.settings_k_rule_fieldname_invalid`, with the line number and the
vocabulary, each name in single quotes, joined by `, `; (2) the text after the
field name does not start with `=`: `..._rule_separator_required`; (3) nothing
follows the `=`: `..._rule_regex_required`; (4) the pattern does not compile:
`..._rule_invalid_regex`.  With kind `block`: `EntryTitle=foo` is valid when
`foo` compiles, `BadField=foo`, `EntryTitle foo` and `EntryTitle=` give the
first three errors at line 1, and `EntryTitle=(unclosed` gives the fourth at
line 1 when `(unclosed` does not compile. -/
theorem C6_error_kind_order (re : Regexp) (s k : Str) (pre : List Str) (rule : Str)
    (post : List Str) (hs : strings.Split s '\n' = pre ++ rule :: post)
    (hpre : ∀ l ∈ pre, WellFormedLine re l) :
    ((∀ F ∈ fieldNames, ¬ F <+: rule) →
      isValidFilterRules re s k = some
        ⟨"error.settings_".toList ++ k ++ "_rule_fieldname_invalid".toList,
          [Arg.int (pre.length + 1),
            Arg.str "'EntryTitle', 'EntryURL', 'EntryCommentsURL', 'EntryContent', 'EntryAuthor', 'EntryTag', 'EntryDate'".toList]⟩) ∧
    (∀ F ∈ fieldNames, ∀ t : Str, rule = F ++ t → (∀ p, t ≠ '=' :: p) →
      isValidFilterRules re s k = some
        ⟨"error.settings_".toList ++ k ++ "_rule_separator_required".toList,
          [Arg.int (pre.length + 1)]⟩) ∧
    (∀ F ∈ fieldNames, rule = F ++ ['='] →
      isValidFilterRules re s k = some
        ⟨"error.settings_".toList ++ k ++ "_rule_regex_required".toList,
          [Arg.int (pre.length + 1)]⟩) ∧
    (∀ F ∈ fieldNames, ∀ p : Str, rule = F ++ '=' :: p → p ≠ [] → re.Compile p = false →
      isValidFilterRules re s k = some
        ⟨"error.settings_".toList ++ k ++ "_rule_invalid_regex".toList,
          [Arg.int (pre.length + 1)]⟩) ∧
    (re.Compile "foo".toList = true →
      isValidFilterRules re "EntryTitle=foo".toList "block".toList = none) ∧
    isValidFilterRules re "BadField=foo".toList "block".toList = some
      ⟨"error.settings_block_rule_fieldname_invalid".toList,
        [Arg.int 1,
          Arg.str "'EntryTitle', 'EntryURL', 'EntryCommentsURL', 'EntryContent', 'EntryAuthor', 'EntryTag', 'EntryDate'".toList]⟩ ∧
    isValidFilterRules re "EntryTitle foo".toList "block".toList = some
      ⟨"error.settings_block_rule_separator_required".toList, [Arg.int 1]⟩ ∧
    isValidFilterRules re "EntryTitle=".toList "block".toList = some
      ⟨"error.settings_block_rule_regex_required".toList, [Arg.int 1]⟩ ∧
    (re.Compile "(unclosed".toList = false →
      isValidFilterRules re "EntryTitle=(unclosed".toList "block".toList = some
        ⟨"error.settings_block_rule_invalid_regex".toList, [Arg.int 1]⟩) := by
  have hpre2 : ∀ l ∈ pre, lineError re l = none :=
    fun l hl => (lineError_eq_none_iff re l).2 (hpre l hl)
  have key : ∀ kind, lineError re rule = some kind →
      isValidFilterRules re s k = some (ruleError k kind (pre.length + 1)) := by
    intro kind hr
    rw [isValidFilterRules, hs, isValidFilterRules_loop_first_error re k pre rule post 0 kind hpre2 hr]
    simp
  have hT : "EntryTitle".toList ∈ fieldNames := by decide
  refine ⟨?_, ?_, ?_, ?_, ?_, rfl, rfl, rfl, ?_⟩
  · intro h
    rw [key _ (lineError_fieldname re rule h)]
    simp [ruleError, fieldNamesDisplay]
  · intro F hF t ht hsep
    rw [key .SeparatorRequired (by rw [ht]; exact lineError_separator re F t hF hsep)]
    simp [ruleError]
  · intro F hF ht
    rw [key .PatternRequired (by rw [ht]; exact lineError_pattern_required re F hF)]
    simp [ruleError]
  · intro F hF p ht hp hc
    rw [key .InvalidRegex (by rw [ht, lineError_pattern re F p hF hp, hc]; rfl)]
    simp [ruleError]
  · intro hc
    have hl : lineError re "EntryTitle=foo".toList = none := by
      have := lineError_pattern re "EntryTitle".toList "foo".toList hT (by decide)
      rw [hc] at this
      exact this
    show isValidFilterRules.loop re "block".toList 0 ["EntryTitle=foo".toList] = none
    rw [isValidFilterRules_loop_cons, hl]
    rfl
  · intro hc
    have hl : lineError re "EntryTitle=(unclosed".toList = some .InvalidRegex := by
      have := lineError_pattern re "EntryTitle".toList "(unclosed".toList hT (by decide)
      rw [hc] at this
      exact this
    show isValidFilterRules.loop re "block".toList 0 ["EntryTitle=(unclosed".toList] = _
    rw [isValidFilterRules_loop_cons, hl]
    rfl

/-- C6, with `exampleRegexp` and kind `keep`, at the rule set of the two lines
`EntryURL=a` and `EntryTitle=(unclosed`: the invalid-regex error at line 2; and
the two examples of the claim that depend on the engine. -/
theorem C6_error_kind_order_witness :
    isValidFilterRules exampleRegexp "EntryURL=a\nEntryTitle=(unclosed".toList "keep".toList =
      some ⟨"error.settings_keep_rule_invalid_regex".toList, [Arg.int 2]⟩ ∧
    isValidFilterRules exampleRegexp "EntryTitle=foo".toList "block".toList = none ∧
    isValidFilterRules exampleRegexp "EntryTitle=(unclosed".toList "block".toList =
      some ⟨"error.settings_block_rule_invalid_regex".toList, [Arg.int 1]⟩ :=
  have hpre : ∀ l ∈ ["EntryURL=a".toList], WellFormedLine exampleRegexp l := by
    intro l hl
    rw [List.mem_singleton] at hl
    subst hl
    exact ⟨"EntryURL".toList, by decide, "a".toList, by decide, by decide, by decide⟩
  have h := C6_error_kind_order exampleRegexp "EntryURL=a\nEntryTitle=(unclosed".toList
    "keep".toList ["EntryURL=a".toList] "EntryTitle=(unclosed".toList [] (by decide) hpre
  ⟨h.2.2.2.1 "EntryTitle".toList (by decide) "(unclosed".toList (by decide) (by decide)
      (by decide),
    h.2.2.2.2.1 (by decide), h.2.2.2.2.2.2.2.2 (by decide)⟩

/-! ## Dates -/

namespace time

theorem digit_comma : digit ',' = none := by decide

/-- A text that parses as a calendar date has no comma. -/
theorem Parse_no_comma (d : Str) (t : Time) (h : Parse d = some t) : ',' ∉ d := by
  unfold Parse at h
  split at h
  · next y1 y2 y3 y4 m1 m2 d1 d2 =>
    split at h
    · next a b c e f g i j ha hb hc he hf hg hi hj =>
      intro hmem
      simp only [List.mem_cons, List.mem_singleton, List.not_mem_nil, or_false] at hmem
      rcases hmem with r | r | r | r | r | r | r | r | r | r
      · rw [← r, digit_comma] at ha; exact absurd ha (by simp)
      · rw [← r, digit_comma] at hb; exact absurd hb (by simp)
      · rw [← r, digit_comma] at hc; exact absurd hc (by simp)
      · rw [← r, digit_comma] at he; exact absurd he (by simp)
      · exact absurd r (by decide)
      · rw [← r, digit_comma] at hf; exact absurd hf (by simp)
      · rw [← r, digit_comma] at hg; exact absurd hg (by simp)
      · exact absurd r (by decide)
      · rw [← r, digit_comma] at hi; exact absurd hi (by simp)
      · rw [← r, digit_comma] at hj; exact absurd hj (by simp)
    · exact absurd h (by simp)
  · exact absurd h (by simp)

end time

theorem isDateMatchingPattern_no_colon (now t : Time) (pattern : Str)
    (hf : pattern ≠ "future".toList) (hc : ':' ∉ pattern) :
    isDateMatchingPattern now t pattern = false := by
  rw [isDateMatchingPattern, if_neg hf]
  simp [strings.SplitN_two_of_not_mem pattern ':' hc]

theorem isDateMatchingPattern_colon (now t : Time) (op rest : Str) (hop : ':' ∉ op) :
    isDateMatchingPattern now t (op ++ ':' :: rest) =
      if op = "before".toList then
        match time.Parse rest with
        | none => false
        | some targetDate => decide (t < targetDate)
      else if op = "after".toList then
        match time.Parse rest with
        | none => false
        | some targetDate => decide (t > targetDate)
      else if op = "between".toList then
        if (strings.Split rest ',').length ≠ 2 then false
        else
          match time.Parse ((strings.Split rest ',').getD 0 []),
            time.Parse ((strings.Split rest ',').getD 1 []) with
          | some startDate, some endDate => decide (t > startDate) && decide (t < endDate)
          | _, _ => false
      else false := by
  have hf : op ++ ':' :: rest ≠ "future".toList := by
    intro e
    have : ':' ∈ "future".toList := by rw [← e]; simp
    exact absurd this (by decide)
  rw [isDateMatchingPattern, if_neg hf]
  simp only [strings.SplitN_two_append_sep op rest ':' hop]
  simp

theorem isDateMatchingPattern_before (now t : Time) (d : Str) :
    isDateMatchingPattern now t ("before:".toList ++ d) =
      match time.Parse d with
      | none => false
      | some targetDate => decide (t < targetDate) := by
  have := isDateMatchingPattern_colon now t "before".toList d (by decide)
  rw [if_pos rfl] at this
  exact this

theorem isDateMatchingPattern_after (now t : Time) (d : Str) :
    isDateMatchingPattern now t ("after:".toList ++ d) =
      match time.Parse d with
      | none => false
      | some targetDate => decide (t > targetDate) := by
  have := isDateMatchingPattern_colon now t "after".toList d (by decide)
  rw [if_neg (by decide), if_pos rfl] at this
  exact this

theorem isDateMatchingPattern_between (now t : Time) (rhs : Str) :
    isDateMatchingPattern now t ("between:".toList ++ rhs) =
      if (strings.Split rhs ',').length ≠ 2 then false
      else
        match time.Parse ((strings.Split rhs ',').getD 0 []),
          time.Parse ((strings.Split rhs ',').getD 1 []) with
        | some startDate, some endDate => decide (t > startDate) && decide (t < endDate)
        | _, _ => false := by
  have := isDateMatchingPattern_colon now t "between".toList rhs (by decide)
  rw [if_neg (by decide), if_neg (by decide), if_pos rfl] at this
  exact this

theorem isDateMatchingPattern_between_dates (now t : Time) (d1 d2 : Str) (t1 t2 : Time)
    (h1 : time.Parse d1 = some t1) (h2 : time.Parse d2 = some t2) :
    isDateMatchingPattern now t ("between:".toList ++ d1 ++ ",".toList ++ d2) =
      (decide (t > t1) && decide (t < t2)) := by
  have hs : strings.Split (d1 ++ ',' :: d2) ',' = [d1, d2] := by
    rw [strings.Split_append_sep d1 d2 ',' (time.Parse_no_comma d1 t1 h1),
      strings.Split_of_not_mem d2 ',' (time.Parse_no_comma d2 t2 h2)]
  have e : "between:".toList ++ d1 ++ ",".toList ++ d2 = "between:".toList ++ (d1 ++ ',' :: d2) := by
    simp
  rw [e, isDateMatchingPattern_between, hs]
  simp [h1, h2]

theorem june15_bounds (e : Int) (hlo : 1718409600000000000 ≤ e)
    (hhi : e < 1718496000000000000) :
    e < 1719792000000000000 ∧ (1704067200000000000 < e ∧ e < 1735603200000000000) ∧
      ¬ 1719792000000000000 < e := by
  omega

/-! ## C7, C8: the date predicate -/

/-- C7: for dates `d`, `d1`, `d2` that parse under the layout YYYY-MM-DD (as
midnight UTC), `isDateMatchingPattern` equals the reference semantics:
`future` is `t > now`, `before:d` is `t < d`, `after:d` is `t > d`,
`between:d1,d2` is `d1 < t ∧ t < d2`.  An entry dated exactly at a boundary
midnight matches none of before, after and between for that boundary.  An entry
dated on 2024-06-15 matches `before:2024-07-01` and
`between:2024-01-01,2024-12-31` and does not match `after:2024-07-01`. -/
theorem C7_isDateMatchingPattern_reference (now t : Time) (d d1 d2 : Str) (td td1 td2 : Time)
    (hd : time.Parse d = some td) (h1 : time.Parse d1 = some td1)
    (h2 : time.Parse d2 = some td2) :
    isDateMatchingPattern now t "future".toList = dateMatchesRef now t .future ∧
    isDateMatchingPattern now t ("before:".toList ++ d) = dateMatchesRef now t (.before td) ∧
    isDateMatchingPattern now t ("after:".toList ++ d) = dateMatchesRef now t (.after td) ∧
    isDateMatchingPattern now t ("between:".toList ++ d1 ++ ",".toList ++ d2) =
      dateMatchesRef now t (.between td1 td2) ∧
    isDateMatchingPattern now td ("before:".toList ++ d) = false ∧
    isDateMatchingPattern now td ("after:".toList ++ d) = false ∧
    isDateMatchingPattern now td1 ("between:".toList ++ d1 ++ ",".toList ++ d2) = false ∧
    isDateMatchingPattern now td2 ("between:".toList ++ d1 ++ ",".toList ++ d2) = false ∧
    (∀ e : Time, time.Date 2024 6 15 ≤ e → e < time.Date 2024 6 16 →
      isDateMatchingPattern now e "before:2024-07-01".toList = true ∧
      isDateMatchingPattern now e "between:2024-01-01,2024-12-31".toList = true ∧
      isDateMatchingPattern now e "after:2024-07-01".toList = false) := by
  refine ⟨?_, ?_, ?_, ?_, ?_, ?_, ?_, ?_, ?_⟩
  · simp [isDateMatchingPattern, dateMatchesRef]
  · rw [isDateMatchingPattern_before, hd]; rfl
  · rw [isDateMatchingPattern_after, hd]; rfl
  · rw [isDateMatchingPattern_between_dates now t d1 d2 td1 td2 h1 h2]
    simp [dateMatchesRef]
  · rw [isDateMatchingPattern_before, hd]; simp
  · rw [isDateMatchingPattern_after, hd]; simp
  · rw [isDateMatchingPattern_between_dates now td1 d1 d2 td1 td2 h1 h2]; simp
  · rw [isDateMatchingPattern_between_dates now td2 d1 d2 td1 td2 h1 h2]; simp
  · intro e hlo hhi
    have e15 : time.Date 2024 6 15 = 1718409600000000000 := by decide
    have e16 : time.Date 2024 6 16 = 1718496000000000000 := by decide
    have p1 : time.Parse "2024-07-01".toList = some 1719792000000000000 := by decide
    have p2 : time.Parse "2024-01-01".toList = some 1704067200000000000 := by decide
    have p3 : time.Parse "2024-12-31".toList = some 1735603200000000000 := by decide
    rw [e15] at hlo
    rw [e16] at hhi
    have hb := june15_bounds e hlo hhi
    refine ⟨?_, ?_, ?_⟩
    · have := isDateMatchingPattern_before now e "2024-07-01".toList
      rw [p1] at this
      rw [show "before:2024-07-01".toList = "before:".toList ++ "2024-07-01".toList from rfl, this]
      simp only [decide_eq_true_eq]
      exact hb.1
    · have := isDateMatchingPattern_between_dates now e "2024-01-01".toList "2024-12-31".toList
        _ _ p2 p3
      rw [show "between:2024-01-01,2024-12-31".toList =
        "between:".toList ++ "2024-01-01".toList ++ ",".toList ++ "2024-12-31".toList from rfl, this]
      simp only [Bool.and_eq_true, decide_eq_true_eq]
      exact hb.2.1
    · have := isDateMatchingPattern_after now e "2024-07-01".toList
      rw [p1] at this
      rw [show "after:2024-07-01".toList = "after:".toList ++ "2024-07-01".toList from rfl, this]
      simp only [decide_eq_false_iff_not]
      exact hb.2.2

/-- C7, at an entry dated 2024-06-15 00:00 UTC and the dates 2024-07-01,
2024-01-01 and 2024-12-31: it is before the first and between the other two. -/
theorem C7_isDateMatchingPattern_reference_witness :
    isDateMatchingPattern 0 (time.Date 2024 6 15) ("before:".toList ++ "2024-07-01".toList) =
      dateMatchesRef 0 (time.Date 2024 6 15) (.before (time.Date 2024 7 1)) ∧
    isDateMatchingPattern 0 (time.Date 2024 6 15)
      ("between:".toList ++ "2024-01-01".toList ++ ",".toList ++ "2024-12-31".toList) =
      dateMatchesRef 0 (time.Date 2024 6 15) (.between (time.Date 2024 1 1) (time.Date 2024 12 31)) ∧
    dateMatchesRef 0 (time.Date 2024 6 15) (.before (time.Date 2024 7 1)) = true ∧
    dateMatchesRef 0 (time.Date 2024 6 15)
      (.between (time.Date 2024 1 1) (time.Date 2024 12 31)) = true :=
  have h := C7_isDateMatchingPattern_reference 0 (time.Date 2024 6 15) "2024-07-01".toList
    "2024-01-01".toList "2024-12-31".toList (time.Date 2024 7 1) (time.Date 2024 1 1)
    (time.Date 2024 12 31) (by decide) (by decide) (by decide)
  ⟨h.2.1, h.2.2.2.1, by decide, by decide⟩

/-- C8: `isDateMatchingPattern` returns `false` on every pattern outside the
date grammar: a pattern other than `future` without `:`; an operator (the
text before the first `:`) other than `before`, `after`, `between`; a date
text that does not parse as YYYY-MM-DD; a right-hand side of `between:` that
does not split on `,` into exactly two parts.  The pattern `xyz` gives `false`. -/
theorem C8_isDateMatchingPattern_off_grammar (now t : Time) :
    (∀ pattern : Str, pattern ≠ "future".toList → ':' ∉ pattern →
      isDateMatchingPattern now t pattern = false) ∧
    (∀ op rest : Str, ':' ∉ op → op ≠ "before".toList → op ≠ "after".toList →
      op ≠ "between".toList → isDateMatchingPattern now t (op ++ ':' :: rest) = false) ∧
    (∀ d : Str, time.Parse d = none →
      isDateMatchingPattern now t ("before:".toList ++ d) = false ∧
      isDateMatchingPattern now t ("after:".toList ++ d) = false) ∧
    (∀ rhs : Str, (strings.Split rhs ',').length ≠ 2 →
      isDateMatchingPattern now t ("between:".toList ++ rhs) = false) ∧
    (∀ a b : Str, ',' ∉ a → ',' ∉ b → time.Parse a = none ∨ time.Parse b = none →
      isDateMatchingPattern now t ("between:".toList ++ a ++ ",".toList ++ b) = false) ∧
    isDateMatchingPattern now t "xyz".toList = false := by
  refine ⟨?_, ?_, ?_, ?_, ?_, ?_⟩
  · intro pattern hf hc
    exact isDateMatchingPattern_no_colon now t pattern hf hc
  · intro op rest hop hb ha hbt
    rw [isDateMatchingPattern_colon now t op rest hop, if_neg hb, if_neg ha, if_neg hbt]
  · intro d hd
    rw [isDateMatchingPattern_before, isDateMatchingPattern_after, hd]
    exact ⟨rfl, rfl⟩
  · intro rhs hlen
    rw [isDateMatchingPattern_between, if_pos hlen]
  · intro a b ha hb hp
    have hs : strings.Split (a ++ ',' :: b) ',' = [a, b] := by
      rw [strings.Split_append_sep a b ',' ha, strings.Split_of_not_mem b ',' hb]
    have e : "between:".toList ++ a ++ ",".toList ++ b = "between:".toList ++ (a ++ ',' :: b) := by
      simp
    rw [e, isDateMatchingPattern_between, hs]
    rcases hp with hp | hp
    · simp [hp]
    · cases h : time.Parse a <;> simp [hp]
  · exact isDateMatchingPattern_no_colon now t _ (by decide) (by decide)

/-- C8, at an entry dated 2024-06-15: `soon`, `until:2024-07-01`,
`before:2024-7-1`, `after:2024-02-30`, `between:2024-01-01` and
`between:2024-01-01,tomorrow` all give `false`. -/
theorem C8_isDateMatchingPattern_off_grammar_witness :
    isDateMatchingPattern 0 (time.Date 2024 6 15) "soon".toList = false ∧
    isDateMatchingPattern 0 (time.Date 2024 6 15) ("until".toList ++ ':' :: "2024-07-01".toList)
      = false ∧
    isDateMatchingPattern 0 (time.Date 2024 6 15) ("before:".toList ++ "2024-7-1".toList)
      = false ∧
    isDateMatchingPattern 0 (time.Date 2024 6 15) ("after:".toList ++ "2024-02-30".toList)
      = false ∧
    isDateMatchingPattern 0 (time.Date 2024 6 15) ("between:".toList ++ "2024-01-01".toList)
      = false ∧
    isDateMatchingPattern 0 (time.Date 2024 6 15)
      ("between:".toList ++ "2024-01-01".toList ++ ",".toList ++ "tomorrow".toList) = false :=
  have h := C8_isDateMatchingPattern_off_grammar 0 (time.Date 2024 6 15)
  ⟨h.1 _ (by decide) (by decide),
    h.2.1 "until".toList "2024-07-01".toList (by decide) (by decide) (by decide) (by decide),
    (h.2.2.1 "2024-7-1".toList (by decide)).1,
    (h.2.2.1 "2024-02-30".toList (by decide)).2,
    h.2.2.2.1 "2024-01-01".toList (by decide),
    h.2.2.2.2.1 "2024-01-01".toList "tomorrow".toList (by decide) (by decide)
      (Or.inr (by decide))⟩

/-! ## Lines with a separator -/

theorem ContainsFunc_total {α : Type} (s : List α) (f : α → Bool) :
    slices.ContainsFunc s (fun a => some (f a)) = some (s.any f) := by
  induction s with
  | nil => rfl
  | cons a rest ih =>
    rw [slices.ContainsFunc]
    cases h : f a <;> simp [h, ih]

/-- The evaluation of a line with a separator: the text before the first `=`
selects the field, the text after it is the pattern. -/
theorem matchLine_split (re : Regexp) (now : Time) (entry : Entry) (F p : Str) (hF : '=' ∉ F) :
    matchLine re now entry (F ++ '=' :: p) =
      if F = "EntryDate".toList then some (isDateMatchingPattern now entry.Date p)
      else if F = "EntryTitle".toList then some (re.MatchString p entry.Title).1
      else if F = "EntryURL".toList then some (re.MatchString p entry.URL).1
      else if F = "EntryCommentsURL".toList then some (re.MatchString p entry.CommentsURL).1
      else if F = "EntryContent".toList then some (re.MatchString p entry.Content).1
      else if F = "EntryAuthor".toList then some (re.MatchString p entry.Author).1
      else if F = "EntryTag".toList then
        some (entry.Tags.any (fun tag => (re.MatchString p tag).1))
      else some false := by
  rw [matchLine]
  simp only [strings.SplitN_two_append_sep F p '=' hF]
  simp only [List.getElem?_cons_zero, List.getElem?_cons_succ, Option.map_some']
  rw [ContainsFunc_total]

theorem Split_single_line (line : Str) (h : '\n' ∉ line) : strings.Split line '\n' = [line] :=
  strings.Split_of_not_mem line '\n' h

theorem isBlockedByRules_single (re : Regexp) (now : Time) (feed : Feed) (entry : Entry)
    (line : Str) (b : Bool) (h : '\n' ∉ line) (hm : matchLine re now entry line = some b) :
    (isBlockedByRules re now feed entry line).map Prod.fst = some b := by
  rw [isBlockedByRules_eq, Split_single_line line h, firstMatch, hm]
  cases b <;> rfl

theorem isAllowedByRules_single (re : Regexp) (now : Time) (feed : Feed) (entry : Entry)
    (line : Str) (b : Bool) (h : '\n' ∉ line) (hm : matchLine re now entry line = some b) :
    (isAllowedByRules re now feed entry line).map Prod.fst = some b := by
  rw [isAllowedByRules_eq, Split_single_line line h, firstMatch, hm]
  cases b <;> rfl

theorem any_eq_of_perm {α : Type} (l1 l2 : List α) (f : α → Bool) (h : l1.Perm l2) :
    l1.any f = l2.any f := by
  rw [Bool.eq_iff_iff, List.any_eq_true, List.any_eq_true]
  constructor
  · rintro ⟨x, hx, hf⟩
    exact ⟨x, h.mem_iff.1 hx, hf⟩
  · rintro ⟨x, hx, hf⟩
    exact ⟨x, h.mem_iff.2 hx, hf⟩

/-! ## C10: the tags -/

/-- C10: the line `EntryTag=p` matches the entry exactly when
`regexp.MatchString(p, tag)` is true for at least one tag of the entry: as a
line, and as a one-line rule set of `isBlockedByRules` and `isAllowedByRules`
when `p` has no newline.  With no tag the line does not match, and the result is
the same for every reordering of the tags.  With the tags `news`, `tech`:
`EntryTag=^tech$` matches when `^tech$` compiles and is found in `tech`, and
`EntryTag=^sports$` does not match when `^sports$` is found in neither tag. -/
theorem C10_EntryTag_any_tag (re : Regexp) (now : Time) (feed : Feed) (entry : Entry) (p : Str) :
    matchLine re now entry ("EntryTag=".toList ++ p) =
      some (entry.Tags.any (fun tag => (re.MatchString p tag).1)) ∧
    ('\n' ∉ p →
      (isBlockedByRules re now feed entry ("EntryTag=".toList ++ p)).map Prod.fst =
        some (entry.Tags.any (fun tag => (re.MatchString p tag).1)) ∧
      (isAllowedByRules re now feed entry ("EntryTag=".toList ++ p)).map Prod.fst =
        some (entry.Tags.any (fun tag => (re.MatchString p tag).1))) ∧
    (matchLine re now entry ("EntryTag=".toList ++ p) = some true ↔
      ∃ tag ∈ entry.Tags, (re.MatchString p tag).1 = true) ∧
    (entry.Tags = [] → matchLine re now entry ("EntryTag=".toList ++ p) = some false) ∧
    (∀ entry2 : Entry, entry2.Tags.Perm entry.Tags →
      matchLine re now entry2 ("EntryTag=".toList ++ p) =
        matchLine re now entry ("EntryTag=".toList ++ p)) ∧
    (re.Compile "^tech$".toList = true → re.Match "^tech$".toList "tech".toList = true →
      matchLine re now { entry with Tags := ["news".toList, "tech".toList] }
        "EntryTag=^tech$".toList = some true) ∧
    (re.Match "^sports$".toList "news".toList = false →
      re.Match "^sports$".toList "tech".toList = false →
      matchLine re now { entry with Tags := ["news".toList, "tech".toList] }
        "EntryTag=^sports$".toList = some false) := by
  have key : ∀ (e : Entry) (q : Str), matchLine re now e ("EntryTag=".toList ++ q) =
      some (e.Tags.any (fun tag => (re.MatchString q tag).1)) := by
    intro e q
    have := matchLine_split re now e "EntryTag".toList q (by decide)
    rw [if_neg (by decide), if_neg (by decide), if_neg (by decide), if_neg (by decide),
      if_neg (by decide), if_neg (by decide), if_pos rfl] at this
    exact this
  refine ⟨key entry p, ?_, ?_, ?_, ?_, ?_, ?_⟩
  · intro hp
    have hline : '\n' ∉ "EntryTag=".toList ++ p := by
      intro hm
      rcases List.mem_append.1 hm with h | h
      · exact absurd h (by decide)
      · exact hp h
    exact ⟨isBlockedByRules_single re now feed entry _ _ hline (key entry p),
      isAllowedByRules_single re now feed entry _ _ hline (key entry p)⟩
  · rw [key entry p]
    simp [List.any_eq_true]
  · intro h
    rw [key entry p, h]
    rfl
  · intro entry2 hperm
    rw [key entry2 p, key entry p, any_eq_of_perm _ _ _ hperm]
  · intro hc hm
    have := key { entry with Tags := ["news".toList, "tech".toList] } "^tech$".toList
    rw [show "EntryTag=^tech$".toList = "EntryTag=".toList ++ "^tech$".toList from rfl, this]
    simp only [Regexp.MatchString, List.any_cons, List.any_nil, hc, hm, if_true]
    simp
  · intro h1 h2
    have := key { entry with Tags := ["news".toList, "tech".toList] } "^sports$".toList
    rw [show "EntryTag=^sports$".toList = "EntryTag=".toList ++ "^sports$".toList from rfl, this]
    cases hc : re.Compile "^sports$".toList <;>
      simp only [Regexp.MatchString, List.any_cons, List.any_nil, hc, h1, h2, if_true] <;> simp

/-- C10, with `exampleRegexp` at the entry with the tags `news` and `tech`:
`EntryTag=^tech$` blocks and `EntryTag=^sports$` does not. -/
theorem C10_EntryTag_any_tag_witness :
    (isBlockedByRules exampleRegexp 0 (feedWith [] []) entryJune
      ("EntryTag=".toList ++ "^tech$".toList)).map Prod.fst = some true ∧
    matchLine exampleRegexp 0 entryJune "EntryTag=^tech$".toList = some true ∧
    matchLine exampleRegexp 0 entryJune "EntryTag=^sports$".toList = some false :=
  have h := C10_EntryTag_any_tag exampleRegexp 0 (feedWith [] []) entryJune "^tech$".toList
  ⟨(h.2.1 (by decide)).1, h.2.2.2.2.2.1 (by decide) (by decide),
    h.2.2.2.2.2.2 (by decide) (by decide)⟩

/-! ## The verdict of `isBlockedEntry` when the evaluation completes -/

/-- When `isBlockedEntry` returns, it returns `true` exactly when a line of the
user's block rules or a line of the feed's block rules matches the entry. -/
theorem isBlockedEntry_true_iff_of_returns (re : Regexp) (now : Time) (feed : Feed)
    (entry : Entry) (user : User) (h : isBlockedEntry re now feed entry user ≠ none) :
    (isBlockedEntry re now feed entry user).map Prod.fst = some true ↔
      (∃ line ∈ strings.Split user.BlockFilterEntryRules '\n',
        matchLine re now entry line = some true) ∨
      (∃ line ∈ strings.Split feed.BlocklistRules '\n',
        matchLine re now entry line = some true) := by
  rw [isBlockedEntry, isBlockedByRules_eq, isBlockedByRules_eq] at h ⊢
  cases hu : firstMatch re now entry (strings.Split user.BlockFilterEntryRules '\n') with
  | none => rw [hu] at h; exact absurd rfl h
  | some fu =>
    cases fu with
    | some r =>
      obtain ⟨pre, post, e, _, hm⟩ := (firstMatch_some_some_iff re now entry _ r).1 hu
      constructor
      · intro _
        exact Or.inl ⟨r, by rw [e]; simp, hm⟩
      · intro _
        rfl
    | none =>
      have hall := (firstMatch_some_none_iff re now entry _).1 hu
      rw [hu] at h
      cases hf : firstMatch re now entry (strings.Split feed.BlocklistRules '\n') with
      | none => rw [hf] at h; exact absurd rfl h
      | some ff =>
        cases ff with
        | some r =>
          obtain ⟨pre, post, e, _, hm⟩ := (firstMatch_some_some_iff re now entry _ r).1 hf
          constructor
          · intro _
            exact Or.inr ⟨r, by rw [e]; simp, hm⟩
          · intro _
            rfl
        | none =>
          have hall2 := (firstMatch_some_none_iff re now entry _).1 hf
          constructor
          · intro hv
            exact absurd hv (by simp [outcome])
          · rintro (⟨line, hl, hm⟩ | ⟨line, hl, hm⟩)
            · rw [hall line hl] at hm
              exact absurd hm (by simp)
            · rw [hall2 line hl] at hm
              exact absurd hm (by simp)

/-! ## Rule sets as lists of lines -/

theorem Split_append_cons (a b : Str) (sep : Char) :
    strings.Split (a ++ sep :: b) sep = strings.Split a sep ++ strings.Split b sep := by
  induction a with
  | nil => simp [strings.Split]
  | cons c cs ih =>
    by_cases hc : c = sep
    · subst hc
      rw [List.cons_append, strings.Split_cons_sep, strings.Split_cons_sep, ih]
      rfl
    · have hne := strings.Split_ne_nil cs sep
      rw [List.cons_append, strings.Split_cons_ne _ _ _ hc, strings.Split_cons_ne _ _ _ hc, ih]
      cases hs : strings.Split cs sep with
      | nil => exact absurd hs hne
      | cons x xs => simp

theorem firstMatch_append (re : Regexp) (now : Time) (entry : Entry) (l1 l2 : List Str) :
    firstMatch re now entry (l1 ++ l2) =
      match firstMatch re now entry l1 with
      | none => none
      | some (some rule) => some (some rule)
      | some none => firstMatch re now entry l2 := by
  induction l1 with
  | nil => rfl
  | cons r l1 ih =>
    rw [List.cons_append, firstMatch, firstMatch]
    cases h : matchLine re now entry r with
    | none => rfl
    | some b =>
      cases b
      · exact ih
      · rfl

/-- A line that evaluates to no match can be removed from a list of lines. -/
theorem firstMatch_remove (re : Regexp) (now : Time) (entry : Entry) (pre post : List Str)
    (line : Str) (h : matchLine re now entry line = some false) :
    firstMatch re now entry (pre ++ line :: post) = firstMatch re now entry (pre ++ post) := by
  rw [firstMatch_append, firstMatch_append, firstMatch, h]

theorem fieldNames_no_separator : ∀ F ∈ fieldNames, '=' ∉ F := by decide

theorem matchLine_field (re : Regexp) (now : Time) (entry : Entry) (F p : Str) (hF : '=' ∉ F) :
    matchLine re now entry (F ++ '=' :: p) = some (fieldMatches re now entry F p) := by
  rw [matchLine_split re now entry F p hF, fieldMatches]
  repeat' split
  all_goals rfl

/-- A line with a separator evaluates without panic. -/
theorem matchLine_of_separator (re : Regexp) (now : Time) (entry : Entry) (line : Str)
    (h : '=' ∈ line) : ∃ b, matchLine re now entry line = some b := by
  rcases strings.exists_first_sep line '=' with hn | ⟨a, b, e, ha⟩
  · exact absurd h hn
  · rw [e]
    exact ⟨_, matchLine_field re now entry a b ha⟩

theorem Split_Join_lines (lines : List Str) (hne : lines ≠ [])
    (h : ∀ l ∈ lines, '\n' ∉ l) : strings.Split (strings.Join lines ['\n']) '\n' = lines := by
  induction lines with
  | nil => exact absurd rfl hne
  | cons a rest ih =>
    cases rest with
    | nil => exact strings.Split_of_not_mem a '\n' (h a (by simp))
    | cons b rest =>
      rw [strings.Join, List.append_assoc, List.singleton_append,
        strings.Split_append_sep a _ '\n' (h a (by simp)),
        ih (by simp) (fun l hl => h l (by simp [hl]))]

theorem regexFieldNames_no_separator : ∀ F ∈ regexFieldNames, '=' ∉ F := by decide

theorem fieldMatches_of_not_compile (re : Regexp) (now : Time) (entry : Entry) (F p : Str)
    (hF : F ∈ regexFieldNames) (hp : re.Compile p = false) :
    fieldMatches re now entry F p = false := by
  have hm : ∀ text, (re.MatchString p text).1 = false := by
    intro text
    simp [Regexp.MatchString, hp]
  simp only [regexFieldNames, List.mem_cons, List.mem_singleton, List.not_mem_nil, or_false]
    at hF
  rcases hF with e | e | e | e | e | e <;> subst e <;>
    simp [fieldMatches, hm]

/-! ## C11: a pattern that does not compile -/

/-- C11: for a regex field name `F` and a pattern `p` that does not compile, the
line `F=p` evaluates to "no match", and a rule set containing that line gets
the same result (verdict and log) from `isBlockedByRules` and from
`isAllowedByRules` as the rule set with that line removed: for rule sets given
by their lines, and for the rule sets obtained by joining the lines with
newlines when at least one line remains. -/
theorem C11_invalid_regex_is_no_match (re : Regexp) (now : Time) (feed : Feed) (entry : Entry)
    (F p : Str) (hF : F ∈ regexFieldNames) (hp : re.Compile p = false) :
    matchLine re now entry (F ++ '=' :: p) = some false ∧
    (∀ (s s2 : Str) (pre post : List Str),
      strings.Split s '\n' = pre ++ (F ++ '=' :: p) :: post →
      strings.Split s2 '\n' = pre ++ post →
      isBlockedByRules re now feed entry s = isBlockedByRules re now feed entry s2 ∧
      isAllowedByRules re now feed entry s = isAllowedByRules re now feed entry s2) ∧
    (∀ pre post : List Str, pre ++ post ≠ [] → '\n' ∉ p → (∀ l ∈ pre ++ post, '\n' ∉ l) →
      isBlockedByRules re now feed entry
          (strings.Join (pre ++ (F ++ '=' :: p) :: post) ['\n']) =
        isBlockedByRules re now feed entry (strings.Join (pre ++ post) ['\n']) ∧
      isAllowedByRules re now feed entry
          (strings.Join (pre ++ (F ++ '=' :: p) :: post) ['\n']) =
        isAllowedByRules re now feed entry (strings.Join (pre ++ post) ['\n'])) := by
  have hline : matchLine re now entry (F ++ '=' :: p) = some false := by
    rw [matchLine_field re now entry F p (regexFieldNames_no_separator F hF),
      fieldMatches_of_not_compile re now entry F p hF hp]
  have key : ∀ (s s2 : Str) (pre post : List Str),
      strings.Split s '\n' = pre ++ (F ++ '=' :: p) :: post →
      strings.Split s2 '\n' = pre ++ post →
      isBlockedByRules re now feed entry s = isBlockedByRules re now feed entry s2 ∧
      isAllowedByRules re now feed entry s = isAllowedByRules re now feed entry s2 := by
    intro s s2 pre post hs hs2
    rw [isBlockedByRules_eq, isBlockedByRules_eq, isAllowedByRules_eq, isAllowedByRules_eq, hs,
      hs2, firstMatch_remove re now entry pre post _ hline]
    exact ⟨rfl, rfl⟩
  refine ⟨hline, key, ?_⟩
  intro pre post hne hp2 hl
  have hFn : '\n' ∉ F := by
    simp only [regexFieldNames, List.mem_cons, List.mem_singleton, List.not_mem_nil, or_false]
      at hF
    rcases hF with e | e | e | e | e | e <;> subst e <;> decide
  apply key _ _ pre post
  · apply Split_Join_lines
    · simp
    · intro l hmem
      rcases List.mem_append.1 hmem with h1 | h1
      · exact hl l (List.mem_append.2 (Or.inl h1))
      · rcases List.mem_cons.1 h1 with h2 | h2
        · subst h2
          intro hm
          rcases List.mem_append.1 hm with h3 | h3
          · exact hFn h3
          · rcases List.mem_cons.1 h3 with h4 | h4
            · exact absurd h4 (by decide)
            · exact hp2 h4
        · exact hl l (List.mem_append.2 (Or.inr h2))
  · exact Split_Join_lines _ hne hl

/-- C11, with `exampleRegexp` at the entry dated 2024-06-15: the rule set of
the lines `EntryTitle=(` and `EntryDate=after:2000-01-01` blocks as the rule
set `EntryDate=after:2000-01-01` does. -/
theorem C11_invalid_regex_is_no_match_witness :
    isBlockedByRules exampleRegexp 0 (feedWith [] []) entryJune
        "EntryTitle=(\nEntryDate=after:2000-01-01".toList =
      isBlockedByRules exampleRegexp 0 (feedWith [] []) entryJune
        "EntryDate=after:2000-01-01".toList ∧
    verdict (isBlockedByRules exampleRegexp 0 (feedWith [] []) entryJune
        "EntryDate=after:2000-01-01".toList) = some true :=
  ⟨((C11_invalid_regex_is_no_match exampleRegexp 0 (feedWith [] []) entryJune
      "EntryTitle".toList "(".toList (by decide) (by decide)).2.1
      "EntryTitle=(\nEntryDate=after:2000-01-01".toList "EntryDate=after:2000-01-01".toList
      [] ["EntryDate=after:2000-01-01".toList] (by decide) (by decide)).1,
    by decide⟩

/-! ## C12: the first matching line fires -/

theorem firstMatch_of_outcome_true (re : Regexp) (now : Time) (feed : Feed) (entry : Entry)
    (msg : Str) (lines : List Str) (log : List LogRecord)
    (h : (firstMatch re now entry lines).map (outcome msg feed entry) = some (true, log)) :
    ∃ rule, firstMatch re now entry lines = some (some rule) ∧
      log = [LogRecord.mk msg entry.URL feed.ID feed.FeedURL rule] := by
  cases hf : firstMatch re now entry lines with
  | none => rw [hf] at h; exact absurd h (by simp)
  | some fired =>
    rw [hf] at h
    cases fired with
    | none => simp [outcome] at h
    | some rule =>
      simp only [Option.map_some', outcome, Option.some.injEq, Prod.mk.injEq, true_and] at h
      exact ⟨rule, rfl, h.symm⟩

/-- C12: when `isBlockedByRules` (or `isAllowedByRules`) returns `true`, exactly
one record is logged, and its `rule` is the matching line of smallest index:
the line matches, every line above it evaluates to "no match", and every rule
set with the same lines up to and including it gets the same verdict and the
same record, whatever its later lines are. -/
theorem C12_first_match_wins (re : Regexp) (now : Time) (feed : Feed) (entry : Entry)
    (s : Str) (log : List LogRecord) :
    (isBlockedByRules re now feed entry s = some (true, log) →
      ∃ pre rule post, strings.Split s '\n' = pre ++ rule :: post ∧
        log = [LogRecord.mk "Blocking entry based on rule".toList entry.URL feed.ID
          feed.FeedURL rule] ∧
        matchLine re now entry rule = some true ∧
        (∀ l ∈ pre, matchLine re now entry l = some false) ∧
        (∀ (s2 : Str) (post2 : List Str), strings.Split s2 '\n' = pre ++ rule :: post2 →
          isBlockedByRules re now feed entry s2 = some (true, log))) ∧
    (isAllowedByRules re now feed entry s = some (true, log) →
      ∃ pre rule post, strings.Split s '\n' = pre ++ rule :: post ∧
        log = [LogRecord.mk "Allowing entry based on rule".toList entry.URL feed.ID
          feed.FeedURL rule] ∧
        matchLine re now entry rule = some true ∧
        (∀ l ∈ pre, matchLine re now entry l = some false) ∧
        (∀ (s2 : Str) (post2 : List Str), strings.Split s2 '\n' = pre ++ rule :: post2 →
          isAllowedByRules re now feed entry s2 = some (true, log))) := by
  constructor
  · intro h
    rw [isBlockedByRules_eq] at h
    obtain ⟨rule, hf, hlog⟩ := firstMatch_of_outcome_true re now feed entry _ _ log h
    obtain ⟨pre, post, e, hall, hm⟩ := (firstMatch_some_some_iff re now entry _ rule).1 hf
    refine ⟨pre, rule, post, e, hlog, hm, hall, ?_⟩
    intro s2 post2 e2
    rw [isBlockedByRules_eq,
      (firstMatch_some_some_iff re now entry _ rule).2 ⟨pre, post2, e2, hall, hm⟩, hlog]
    rfl
  · intro h
    rw [isAllowedByRules_eq] at h
    obtain ⟨rule, hf, hlog⟩ := firstMatch_of_outcome_true re now feed entry _ _ log h
    obtain ⟨pre, post, e, hall, hm⟩ := (firstMatch_some_some_iff re now entry _ rule).1 hf
    refine ⟨pre, rule, post, e, hlog, hm, hall, ?_⟩
    intro s2 post2 e2
    rw [isAllowedByRules_eq,
      (firstMatch_some_some_iff re now entry _ rule).2 ⟨pre, post2, e2, hall, hm⟩, hlog]
    rfl

/-- C12, at `exampleBlockRules` and the entry dated 2024-06-15: the second line
fires; the third line, which would panic, is not evaluated. -/
theorem C12_first_match_wins_witness :
    ∃ pre rule post, strings.Split exampleBlockRules '\n' = pre ++ rule :: post ∧
      [LogRecord.mk "Blocking entry based on rule".toList entryJune.URL (feedWith [] []).ID
          (feedWith [] []).FeedURL "EntryDate=after:2000-01-01".toList] =
        [LogRecord.mk "Blocking entry based on rule".toList entryJune.URL (feedWith [] []).ID
          (feedWith [] []).FeedURL rule] ∧
      matchLine exampleRegexp 0 entryJune rule = some true ∧
      (∀ l ∈ pre, matchLine exampleRegexp 0 entryJune l = some false) ∧
      (∀ (s2 : Str) (post2 : List Str), strings.Split s2 '\n' = pre ++ rule :: post2 →
        isBlockedByRules exampleRegexp 0 (feedWith [] []) entryJune s2 =
          some (true, [LogRecord.mk "Blocking entry based on rule".toList entryJune.URL
            (feedWith [] []).ID (feedWith [] []).FeedURL "EntryDate=after:2000-01-01".toList])) :=
  (C12_first_match_wins exampleRegexp 0 (feedWith [] []) entryJune exampleBlockRules
    [LogRecord.mk "Blocking entry based on rule".toList entryJune.URL (feedWith [] []).ID
      (feedWith [] []).FeedURL "EntryDate=after:2000-01-01".toList]).1 (by decide)

/-! ## C13: the pattern is the text after the first separator -/

theorem fieldNames_no_newline : ∀ F ∈ fieldNames, '\n' ∉ F := by decide

theorem line_no_newline (F p : Str) (hF : '\n' ∉ F) (hp : '\n' ∉ p) : '\n' ∉ F ++ '=' :: p := by
  intro hm
  rcases List.mem_append.1 hm with h | h
  · exact hF h
  · rcases List.mem_cons.1 h with h2 | h2
    · exact absurd h2 (by decide)
    · exact hp h2

theorem isValidFilterRules_single (re : Regexp) (line k : Str) (h : '\n' ∉ line) :
    isValidFilterRules re line k =
      match lineError re line with
      | some kind => some (ruleError k kind 1)
      | none => none := by
  rw [isValidFilterRules, Split_single_line line h, isValidFilterRules_loop_cons]
  cases lineError re line <;> rfl

/-- C13: for a field name `F` of the vocabulary and any pattern text `p`
(with any number of `=`), the line `F=p` splits into the parts `F` and `p`; the
matcher evaluates the field `F` with the pattern `p`; the validator finds the
field name `F` and its `fieldRegEx` is `p`.  When `p` has no newline, the
one-line rule set `F=p` gets this verdict from both matchers, and the validator
rejects it exactly when `p` is empty or does not compile. -/
theorem C13_pattern_verbatim (re : Regexp) (now : Time) (feed : Feed) (entry : Entry)
    (F p k : Str) (hF : F ∈ fieldNames) :
    strings.SplitN (F ++ '=' :: p) '=' 2 = [F, p] ∧
    matchLine re now entry (F ++ '=' :: p) = some (fieldMatches re now entry F p) ∧
    fieldNames.getD (slices.IndexFunc fieldNames
      (fun fieldName => strings.HasPrefix (F ++ '=' :: p) fieldName)).toNat [] = F ∧
    strings.TrimPrefix (strings.CutPrefix (F ++ '=' :: p) F).1 "=".toList = p ∧
    ('\n' ∉ p →
      verdict (isBlockedByRules re now feed entry (F ++ '=' :: p)) =
        some (fieldMatches re now entry F p) ∧
      verdict (isAllowedByRules re now feed entry (F ++ '=' :: p)) =
        some (fieldMatches re now entry F p) ∧
      isValidFilterRules re (F ++ '=' :: p) k =
        if p = [] then some (ruleError k .PatternRequired 1)
        else if re.Compile p then none
        else some (ruleError k .InvalidRegex 1)) := by
  have hsep := fieldNames_no_separator F hF
  have hm := matchLine_field re now entry F p hsep
  refine ⟨strings.SplitN_two_append_sep F p '=' hsep, hm, ?_, ?_, ?_⟩
  · exact slices.getD_IndexFunc _ _ _ _
      (fieldNames_find_eq (F ++ '=' :: p) F hF (List.prefix_append F _))
  · have hpre : strings.HasPrefix (F ++ '=' :: p) F = true :=
      List.isPrefixOf_iff_prefix.2 (List.prefix_append F _)
    simp [strings.CutPrefix, strings.TrimPrefix, hpre, strings.HasPrefix]
  · intro hp
    have hline := line_no_newline F p (fieldNames_no_newline F hF) hp
    refine ⟨isBlockedByRules_single re now feed entry _ _ hline hm,
      isAllowedByRules_single re now feed entry _ _ hline hm, ?_⟩
    rw [isValidFilterRules_single re _ k hline]
    by_cases he : p = []
    · subst he
      rw [lineError_pattern_required re F hF]
      simp
    · rw [lineError_pattern re F p hF he, if_neg he]
      cases re.Compile p <;> rfl

/-- C13, with `exampleRegexp` at the line `EntryTitle=a=b`: the pattern is
`a=b`, and the rule set is valid. -/
theorem C13_pattern_verbatim_witness :
    strings.SplitN "EntryTitle=a=b".toList '=' 2 = ["EntryTitle".toList, "a=b".toList] ∧
    verdict (isBlockedByRules exampleRegexp 0 (feedWith [] []) entryJune
      ("EntryTitle".toList ++ '=' :: "a=b".toList)) =
      some (fieldMatches exampleRegexp 0 entryJune "EntryTitle".toList "a=b".toList) ∧
    isValidFilterRules exampleRegexp ("EntryTitle".toList ++ '=' :: "a=b".toList)
      "keep".toList = none :=
  have h := C13_pattern_verbatim exampleRegexp 0 (feedWith [] []) entryJune "EntryTitle".toList
    "a=b".toList "keep".toList (by decide)
  ⟨h.1, (h.2.2.2.2 (by decide)).1, (h.2.2.2.2 (by decide)).2.2⟩

/-! ## C14: unknown field names -/

theorem SplitN_two_head (line : Str) :
    (strings.SplitN line '=' 2)[0]? = some (textBeforeSeparator line) := by
  rcases strings.exists_first_sep line '=' with hn | ⟨a, b, e, ha⟩
  · have h := strings.span_ne_of_not_mem line '=' hn
    rw [List.span_eq_take_drop] at h
    rw [strings.SplitN_two_of_not_mem line '=' hn, textBeforeSeparator, (Prod.mk.inj h).1]
    rfl
  · have h := strings.span_ne_append_sep a b '=' ha
    rw [List.span_eq_take_drop] at h
    rw [e, strings.SplitN_two_append_sep a b '=' ha, textBeforeSeparator, (Prod.mk.inj h).1]
    rfl

theorem matchLine_unknown_field (re : Regexp) (now : Time) (entry : Entry) (line : Str)
    (h : textBeforeSeparator line ∉ fieldNames) : matchLine re now entry line = some false := by
  simp only [fieldNames, List.mem_cons, List.mem_singleton, List.not_mem_nil, or_false,
    not_or] at h
  obtain ⟨h1, h2, h3, h4, h5, h6, h7⟩ := h
  rw [matchLine]
  simp only [SplitN_two_head line]
  rw [if_neg h7, if_neg h1, if_neg h2, if_neg h3, if_neg h4, if_neg h5, if_neg h6]

/-- C14: a rule line whose text before the first `=` (the whole line when it
has no `=`) is not a field name of the vocabulary evaluates to "no match"
without panic.  A rule set made of such lines only never blocks, alone or as
the user's and the feed's block rules, and as a non-empty keep rule set of the
user it never keeps. -/
theorem C14_unknown_field_no_match (re : Regexp) (now : Time) (feed : Feed) (entry : Entry) :
    (∀ line : Str, textBeforeSeparator line ∉ fieldNames →
      matchLine re now entry line = some false) ∧
    (∀ s : Str, (∀ line ∈ strings.Split s '\n', textBeforeSeparator line ∉ fieldNames) →
      isBlockedByRules re now feed entry s = some (false, []) ∧
      isAllowedByRules re now feed entry s = some (false, [])) ∧
    (∀ user : User,
      (∀ line ∈ strings.Split user.BlockFilterEntryRules '\n',
        textBeforeSeparator line ∉ fieldNames) →
      (∀ line ∈ strings.Split feed.BlocklistRules '\n',
        textBeforeSeparator line ∉ fieldNames) →
      isBlockedEntry re now feed entry user = some (false, [])) ∧
    (∀ user : User, user.KeepFilterEntryRules ≠ [] →
      (∀ line ∈ strings.Split user.KeepFilterEntryRules '\n',
        textBeforeSeparator line ∉ fieldNames) →
      isAllowedEntry re now feed entry user = some (false, [])) := by
  have key : ∀ s : Str,
      (∀ line ∈ strings.Split s '\n', textBeforeSeparator line ∉ fieldNames) →
      isBlockedByRules re now feed entry s = some (false, []) ∧
      isAllowedByRules re now feed entry s = some (false, []) := by
    intro s hs
    have hf := firstMatch_none_of_all_false re now entry (strings.Split s '\n')
      (fun line hl => matchLine_unknown_field re now entry line (hs line hl))
    rw [isBlockedByRules_eq, isAllowedByRules_eq, hf]
    exact ⟨rfl, rfl⟩
  refine ⟨fun line h => matchLine_unknown_field re now entry line h, key, ?_, ?_⟩
  · intro user hu hfeed
    rw [isBlockedEntry, (key _ hu).1, (key _ hfeed).1]
    rfl
  · intro user hne hu
    rw [isAllowedEntry, if_pos hne, (key _ hu).2]

/-- C14, at the lines `foo` and `Title=Release` and the entry dated 2024-06-15:
neither matches, and the rule set of the two lines neither blocks nor keeps. -/
theorem C14_unknown_field_no_match_witness :
    matchLine exampleRegexp 0 entryJune "foo".toList = some false ∧
    matchLine exampleRegexp 0 entryJune "Title=Release".toList = some false ∧
    isBlockedByRules exampleRegexp 0 (feedWith [] []) entryJune "foo\nTitle=Release".toList =
      some (false, []) ∧
    isAllowedEntry exampleRegexp 0 (feedWith [] []) entryJune ⟨[], "foo\nTitle=Release".toList⟩ =
      some (false, []) :=
  have h := C14_unknown_field_no_match exampleRegexp 0 (feedWith [] []) entryJune
  ⟨h.1 _ (by decide), h.1 _ (by decide), (h.2.1 _ (by decide)).1,
    h.2.2.2 ⟨[], "foo\nTitle=Release".toList⟩ (by decide) (by decide)⟩

/-! ## C15: the clock -/

theorem isDateMatchingPattern_clock (now1 now2 t : Time) (pattern : Str)
    (h : pattern ≠ "future".toList) :
    isDateMatchingPattern now1 t pattern = isDateMatchingPattern now2 t pattern := by
  rw [isDateMatchingPattern, isDateMatchingPattern, if_neg h, if_neg h]

theorem matchLine_clock (re : Regexp) (now1 now2 : Time) (entry : Entry) (line : Str)
    (h : line ≠ "EntryDate=future".toList) :
    matchLine re now1 entry line = matchLine re now2 entry line := by
  rcases strings.exists_first_sep line '=' with hn | ⟨a, b, e, ha⟩
  · rw [matchLine, matchLine]
    simp [strings.SplitN_two_of_not_mem line '=' hn]
  · subst e
    rw [matchLine_field re now1 entry a b ha, matchLine_field re now2 entry a b ha, fieldMatches,
      fieldMatches]
    by_cases hd : a = "EntryDate".toList
    · have hb : b ≠ "future".toList := by
        intro hb
        apply h
        rw [hd, hb]
        rfl
      rw [if_pos hd, if_pos hd, isDateMatchingPattern_clock now1 now2 _ b hb]
    · rw [if_neg hd, if_neg hd]

theorem firstMatch_clock (re : Regexp) (now1 now2 : Time) (entry : Entry) (lines : List Str)
    (h : ∀ line ∈ lines, line ≠ "EntryDate=future".toList) :
    firstMatch re now1 entry lines = firstMatch re now2 entry lines := by
  induction lines with
  | nil => rfl
  | cons l lines ih =>
    rw [firstMatch, firstMatch, matchLine_clock re now1 now2 entry l (h l (by simp)),
      ih (fun x hx => h x (by simp [hx]))]

/-- C15, as stated, fails: with the user's block rule `EntryDate=future` and an
entry dated 2024-06-15, `isBlockedEntry` returns `true` when the clock reads
1970-01-01 and `false` when it reads 2025-01-01; the same holds for
`isAllowedEntry` with that rule as keep rule. -/
theorem C15_verdict_depends_on_clock :
    verdict (isBlockedEntry exampleRegexp 0 (feedWith [] []) entryJune
      ⟨"EntryDate=future".toList, []⟩) = some true ∧
    verdict (isBlockedEntry exampleRegexp (time.Date 2025 1 1) (feedWith [] []) entryJune
      ⟨"EntryDate=future".toList, []⟩) = some false ∧
    verdict (isAllowedEntry exampleRegexp 0 (feedWith [] []) entryJune
      ⟨[], "EntryDate=future".toList⟩) = some true ∧
    verdict (isAllowedEntry exampleRegexp (time.Date 2025 1 1) (feedWith [] []) entryJune
      ⟨[], "EntryDate=future".toList⟩) = some false := by
  decide

/-- C15, amended: two evaluations of `isBlockedEntry` (of `isAllowedEntry`) on
the same arguments return the same verdict and log when the clock reads the
same at both, and, whatever the clock reads, when no line of the user's and of
the feed's block rules (keep rules) is `EntryDate=future`. -/
theorem C15_same_verdict_without_future (re : Regexp) (now1 now2 : Time) (feed : Feed)
    (entry : Entry) (user : User) :
    (now1 = now2 →
      isBlockedEntry re now1 feed entry user = isBlockedEntry re now2 feed entry user ∧
      isAllowedEntry re now1 feed entry user = isAllowedEntry re now2 feed entry user) ∧
    ((∀ line ∈ strings.Split user.BlockFilterEntryRules '\n', line ≠ "EntryDate=future".toList) →
      (∀ line ∈ strings.Split feed.BlocklistRules '\n', line ≠ "EntryDate=future".toList) →
      isBlockedEntry re now1 feed entry user = isBlockedEntry re now2 feed entry user) ∧
    ((∀ line ∈ strings.Split user.KeepFilterEntryRules '\n', line ≠ "EntryDate=future".toList) →
      (∀ line ∈ strings.Split feed.KeeplistRules '\n', line ≠ "EntryDate=future".toList) →
      isAllowedEntry re now1 feed entry user = isAllowedEntry re now2 feed entry user) := by
  refine ⟨?_, ?_, ?_⟩
  · intro h
    subst h
    exact ⟨rfl, rfl⟩
  · intro hu hf
    rw [isBlockedEntry, isBlockedEntry, isBlockedByRules_eq, isBlockedByRules_eq,
      isBlockedByRules_eq, isBlockedByRules_eq, firstMatch_clock re now1 now2 entry _ hu,
      firstMatch_clock re now1 now2 entry _ hf]
  · intro hu hf
    rw [isAllowedEntry, isAllowedEntry, isAllowedByRules_eq, isAllowedByRules_eq,
      isAllowedByRules_eq, isAllowedByRules_eq, firstMatch_clock re now1 now2 entry _ hu,
      firstMatch_clock re now1 now2 entry _ hf]

/-- C15 amended, at the block rule `EntryDate=after:2000-01-01`: the entry dated
2024-06-15 is blocked when the clock reads 1970-01-01 and when it reads
2025-01-01. -/
theorem C15_same_verdict_without_future_witness :
    isBlockedEntry exampleRegexp 0 (feedWith [] []) entryJune
        ⟨"EntryDate=after:2000-01-01".toList, []⟩ =
      isBlockedEntry exampleRegexp (time.Date 2025 1 1) (feedWith [] []) entryJune
        ⟨"EntryDate=after:2000-01-01".toList, []⟩ ∧
    verdict (isBlockedEntry exampleRegexp 0 (feedWith [] []) entryJune
        ⟨"EntryDate=after:2000-01-01".toList, []⟩) = some true :=
  ⟨(C15_same_verdict_without_future exampleRegexp 0 (time.Date 2025 1 1) (feedWith [] [])
      entryJune ⟨"EntryDate=after:2000-01-01".toList, []⟩).2.1 (by decide) (by decide),
    by decide⟩

/-! ## C16: a date rule outside the date grammar -/

/-- C16: for a pattern `p` that is non-empty, has no newline, compiles, is not
`future` and has no `:`, the rule set `EntryDate=p` is accepted by
`isValidFilterRules` for every kind, and `isBlockedByRules` (as
`isAllowedByRules`) returns `false` on it for every entry and every clock
reading. -/
theorem C16_date_rule_valid_but_never_matches (re : Regexp) (now : Time) (feed : Feed)
    (entry : Entry) (p k : Str) (hne : p ≠ []) (hnl : '\n' ∉ p) (hc : re.Compile p = true)
    (hf : p ≠ "future".toList) (hcol : ':' ∉ p) :
    isValidFilterRules re ("EntryDate=".toList ++ p) k = none ∧
    isBlockedByRules re now feed entry ("EntryDate=".toList ++ p) = some (false, []) ∧
    isAllowedByRules re now feed entry ("EntryDate=".toList ++ p) = some (false, []) := by
  have hF : "EntryDate".toList ∈ fieldNames := by decide
  have hline : '\n' ∉ "EntryDate".toList ++ '=' :: p :=
    line_no_newline _ p (fieldNames_no_newline _ hF) hnl
  have hm : matchLine re now entry ("EntryDate".toList ++ '=' :: p) = some false := by
    rw [matchLine_field re now entry _ p (fieldNames_no_separator _ hF), fieldMatches,
      if_pos rfl, isDateMatchingPattern_no_colon now entry.Date p hf hcol]
  have e : "EntryDate=".toList ++ p = "EntryDate".toList ++ '=' :: p := rfl
  rw [e]
  refine ⟨?_, ?_, ?_⟩
  · rw [isValidFilterRules_single re _ k hline, lineError_pattern re _ p hF hne, hc]
    rfl
  · rw [isBlockedByRules_eq, Split_single_line _ hline, firstMatch, hm]
    rfl
  · rw [isAllowedByRules_eq, Split_single_line _ hline, firstMatch, hm]
    rfl

/-- C16, with `exampleRegexp` at the rule set `EntryDate=xyz`: valid as a block
rule set, and the entry dated 2024-06-15 is not blocked. -/
theorem C16_date_rule_valid_but_never_matches_witness :
    isValidFilterRules exampleRegexp "EntryDate=xyz".toList "block".toList = none ∧
    isBlockedByRules exampleRegexp 0 (feedWith [] []) entryJune "EntryDate=xyz".toList =
      some (false, []) :=
  have h := C16_date_rule_valid_but_never_matches exampleRegexp 0 (feedWith [] []) entryJune
    "xyz".toList "block".toList (by decide) (by decide) (by decide) (by decide) (by decide)
  ⟨h.1, h.2.1⟩

/-! ## C17: lines combine by OR -/

theorem verdict_isBlockedByRules (re : Regexp) (now : Time) (feed : Feed) (entry : Entry)
    (s : Str) :
    verdict (isBlockedByRules re now feed entry s) =
      (firstMatch re now entry (strings.Split s '\n')).map Option.isSome := by
  rw [isBlockedByRules_eq, verdict]
  cases firstMatch re now entry (strings.Split s '\n') with
  | none => rfl
  | some fired => cases fired <;> rfl

theorem firstMatch_total (re : Regexp) (now : Time) (entry : Entry) (lines : List Str)
    (h : ∀ l ∈ lines, ∃ b, matchLine re now entry l = some b) :
    ∃ fired, firstMatch re now entry lines = some fired := by
  induction lines with
  | nil => exact ⟨none, rfl⟩
  | cons l lines ih =>
    obtain ⟨b, hb⟩ := h l (by simp)
    rw [firstMatch, hb]
    cases b
    · exact ih (fun x hx => h x (by simp [hx]))
    · exact ⟨some l, rfl⟩

theorem lines_evaluate_of_separator (re : Regexp) (now : Time) (entry : Entry) (r : Str)
    (h : linesHaveSeparator r) :
    ∀ l ∈ strings.Split r '\n', ∃ b, matchLine re now entry l = some b := by
  intro l hl
  rcases h with h | h
  · subst h
    simp only [strings.Split, List.mem_singleton] at hl
    subst hl
    exact ⟨false, rfl⟩
  · exact matchLine_of_separator re now entry l (h l hl)

theorem firstMatch_fires_of_mem (re : Regexp) (now : Time) (entry : Entry) (lines : List Str)
    (h : ∀ l ∈ lines, ∃ b, matchLine re now entry l = some b) (rule : Str) (hr : rule ∈ lines)
    (hm : matchLine re now entry rule = some true) :
    ∃ fired, firstMatch re now entry lines = some (some fired) := by
  obtain ⟨fired, hf⟩ := firstMatch_total re now entry lines h
  cases fired with
  | some x => exact ⟨x, hf⟩
  | none =>
    have := (firstMatch_some_none_iff re now entry lines).1 hf rule hr
    rw [hm] at this
    exact absurd this (by simp)

/-- C17: for rule-set strings `r1` and `r2` that are empty or have `=` in each
line, the verdict of `isBlockedByRules` on `r1`, a newline, `r2` is the
disjunction of its verdicts on `r1` and on `r2`.  `isBlockedEntry` is
`isBlockedByRules` on the user's block rules, a newline, the feed's block
rules (same verdict, same log, same panics).  A blocked entry stays blocked
when lines are appended, and when lines are added anywhere provided every line
of the larger rule set has `=`. -/
theorem C17_lines_combine_by_or (re : Regexp) (now : Time) (feed : Feed) (entry : Entry)
    (r1 r2 : Str) :
    (linesHaveSeparator r1 → linesHaveSeparator r2 →
      ∃ b1 b2, verdict (isBlockedByRules re now feed entry r1) = some b1 ∧
        verdict (isBlockedByRules re now feed entry r2) = some b2 ∧
        verdict (isBlockedByRules re now feed entry (r1 ++ "\n".toList ++ r2)) =
          some (b1 || b2)) ∧
    (∀ user : User, isBlockedEntry re now feed entry user =
      isBlockedByRules re now feed entry
        (user.BlockFilterEntryRules ++ "\n".toList ++ feed.BlocklistRules)) ∧
    (verdict (isBlockedByRules re now feed entry r1) = some true →
      verdict (isBlockedByRules re now feed entry (r1 ++ "\n".toList ++ r2)) = some true) ∧
    (linesHaveSeparator r2 →
      (∀ line ∈ strings.Split r1 '\n', line ∈ strings.Split r2 '\n') →
      verdict (isBlockedByRules re now feed entry r1) = some true →
      verdict (isBlockedByRules re now feed entry r2) = some true) := by
  have hjoin : ∀ a b : Str, strings.Split (a ++ "\n".toList ++ b) '\n' =
      strings.Split a '\n' ++ strings.Split b '\n' := by
    intro a b
    rw [← Split_append_cons a b '\n']
    simp
  refine ⟨?_, ?_, ?_, ?_⟩
  · intro h1 h2
    obtain ⟨f1, hf1⟩ := firstMatch_total re now entry _
      (lines_evaluate_of_separator re now entry r1 h1)
    obtain ⟨f2, hf2⟩ := firstMatch_total re now entry _
      (lines_evaluate_of_separator re now entry r2 h2)
    refine ⟨f1.isSome, f2.isSome, ?_, ?_, ?_⟩
    · rw [verdict_isBlockedByRules, hf1]; rfl
    · rw [verdict_isBlockedByRules, hf2]; rfl
    · rw [verdict_isBlockedByRules, hjoin, firstMatch_append, hf1]
      cases f1 with
      | none => simp [hf2]
      | some r => rfl
  · intro user
    rw [isBlockedEntry, isBlockedByRules_eq, isBlockedByRules_eq, isBlockedByRules_eq, hjoin,
      firstMatch_append]
    cases firstMatch re now entry (strings.Split user.BlockFilterEntryRules '\n') with
    | none => rfl
    | some f1 =>
      cases f1 with
      | some r => rfl
      | none =>
        cases firstMatch re now entry (strings.Split feed.BlocklistRules '\n') with
        | none => rfl
        | some f2 => cases f2 <;> rfl
  · intro h
    rw [verdict_isBlockedByRules] at h ⊢
    rw [hjoin, firstMatch_append]
    cases hf : firstMatch re now entry (strings.Split r1 '\n') with
    | none => rw [hf] at h; exact absurd h (by simp)
    | some f1 =>
      rw [hf] at h
      cases f1 with
      | some r => rfl
      | none => exact absurd h (by simp)
  · intro h2 hsub h
    rw [verdict_isBlockedByRules] at h ⊢
    cases hf : firstMatch re now entry (strings.Split r1 '\n') with
    | none => rw [hf] at h; exact absurd h (by simp)
    | some f1 =>
      rw [hf] at h
      cases f1 with
      | none => exact absurd h (by simp)
      | some r =>
        obtain ⟨pre, post, e, _, hm⟩ := (firstMatch_some_some_iff re now entry _ r).1 hf
        have hr : r ∈ strings.Split r2 '\n' := hsub r (by rw [e]; simp)
        obtain ⟨fired, hfired⟩ := firstMatch_fires_of_mem re now entry _
          (lines_evaluate_of_separator re now entry r2 h2) r hr hm
        rw [hfired]
        rfl

/-- C17, at the entry dated 2024-06-15 with `r1` the line
`EntryDate=before:2000-01-01` and `r2` the line `EntryDate=after:2000-01-01`:
the verdict on the two lines is the disjunction, and `r2` followed by `r1`
still blocks. -/
theorem C17_lines_combine_by_or_witness :
    (∃ b1 b2,
      verdict (isBlockedByRules exampleRegexp 0 (feedWith [] []) entryJune
        "EntryDate=before:2000-01-01".toList) = some b1 ∧
      verdict (isBlockedByRules exampleRegexp 0 (feedWith [] []) entryJune
        "EntryDate=after:2000-01-01".toList) = some b2 ∧
      verdict (isBlockedByRules exampleRegexp 0 (feedWith [] []) entryJune
        ("EntryDate=before:2000-01-01".toList ++ "\n".toList ++
          "EntryDate=after:2000-01-01".toList)) = some (b1 || b2)) ∧
    verdict (isBlockedByRules exampleRegexp 0 (feedWith [] []) entryJune
      ("EntryDate=after:2000-01-01".toList ++ "\n".toList ++
        "EntryDate=before:2000-01-01".toList)) = some true :=
  ⟨(C17_lines_combine_by_or exampleRegexp 0 (feedWith [] []) entryJune
      "EntryDate=before:2000-01-01".toList "EntryDate=after:2000-01-01".toList).1
      (Or.inr (by decide)) (Or.inr (by decide)),
    (C17_lines_combine_by_or exampleRegexp 0 (feedWith [] []) entryJune
      "EntryDate=after:2000-01-01".toList "EntryDate=before:2000-01-01".toList).2.2.1
      (by decide)⟩

/-! ## C18: validation protects evaluation -/

theorem valid_lines_wellFormed (re : Regexp) (s k : Str)
    (h : isValidFilterRules re s k = none) :
    ∀ line ∈ strings.Split s '\n', WellFormedLine re line := by
  intro line hline
  rw [isValidFilterRules] at h
  rcases lines_first_error re (strings.Split s '\n') with
    hall | ⟨pre, rule, post, kind, e, hpre, hr⟩
  · exact (lineError_eq_none_iff re line).1 (hall line hline)
  · rw [e, isValidFilterRules_loop_first_error re k pre rule post 0 kind hpre hr] at h
    exact absurd h (by simp)

/-- C18: when `isValidFilterRules` returns nil on a rule set, every line of it
splits at its first `=` into exactly two parts, a field name of the vocabulary
and a non-empty pattern that compiles (the text the validator checked), the
line evaluates without panic to what the field and that pattern give, and
`isBlockedByRules` and `isAllowedByRules` return a verdict for every entry. -/
theorem C18_validation_protects_evaluation (re : Regexp) (now : Time) (feed : Feed)
    (entry : Entry) (s k : Str) (h : isValidFilterRules re s k = none) :
    (∀ line ∈ strings.Split s '\n', ∃ F ∈ fieldNames, ∃ p : Str,
      strings.SplitN line '=' 2 = [F, p] ∧ (strings.SplitN line '=' 2)[1]? = some p ∧
      strings.TrimPrefix (strings.CutPrefix line F).1 "=".toList = p ∧
      p ≠ [] ∧ re.Compile p = true ∧
      matchLine re now entry line = some (fieldMatches re now entry F p)) ∧
    (∃ b, verdict (isBlockedByRules re now feed entry s) = some b) ∧
    (∃ b, verdict (isAllowedByRules re now feed entry s) = some b) := by
  have hw := valid_lines_wellFormed re s k h
  have hlines : ∀ line ∈ strings.Split s '\n', ∃ b, matchLine re now entry line = some b := by
    intro line hl
    obtain ⟨F, hF, p, e, _, _⟩ := hw line hl
    rw [e]
    exact ⟨_, matchLine_field re now entry F p (fieldNames_no_separator F hF)⟩
  obtain ⟨fired, hfired⟩ := firstMatch_total re now entry _ hlines
  refine ⟨?_, ?_, ?_⟩
  · intro line hl
    obtain ⟨F, hF, p, e, hp, hc⟩ := hw line hl
    have hsep := fieldNames_no_separator F hF
    have hsplit := strings.SplitN_two_append_sep F p '=' hsep
    refine ⟨F, hF, p, by rw [e, hsplit], by rw [e, hsplit]; rfl, ?_, hp, hc,
      by rw [e]; exact matchLine_field re now entry F p hsep⟩
    have hpre : strings.HasPrefix (F ++ '=' :: p) F = true :=
      List.isPrefixOf_iff_prefix.2 (List.prefix_append F _)
    rw [e]
    simp [strings.CutPrefix, strings.TrimPrefix, hpre, strings.HasPrefix]
  · exact ⟨fired.isSome, by rw [verdict_isBlockedByRules, hfired]; rfl⟩
  · refine ⟨fired.isSome, ?_⟩
    rw [isAllowedByRules_eq, verdict, hfired]
    cases fired <;> rfl

/-- C18, with `exampleRegexp` at the valid rule set of the lines
`EntryTitle=foo` and `EntryDate=after:2000-01-01`. -/
theorem C18_validation_protects_evaluation_witness :
    isValidFilterRules exampleRegexp "EntryTitle=foo\nEntryDate=after:2000-01-01".toList
      "block".toList = none ∧
    (∃ b, verdict (isBlockedByRules exampleRegexp 0 (feedWith [] []) entryJune
      "EntryTitle=foo\nEntryDate=after:2000-01-01".toList) = some b) ∧
    (∃ b, verdict (isAllowedByRules exampleRegexp 0 (feedWith [] []) entryJune
      "EntryTitle=foo\nEntryDate=after:2000-01-01".toList) = some b) :=
  ⟨by decide,
    (C18_validation_protects_evaluation exampleRegexp 0 (feedWith [] []) entryJune
      "EntryTitle=foo\nEntryDate=after:2000-01-01".toList "block".toList (by decide)).2⟩

/-! ## C19: the two evaluators agree -/

/-- C19: on every rule-set string, the empty one included, `isBlockedByRules`
and `isAllowedByRules` return the same verdict and log the same rule line, and
one panics exactly when the other does; on the empty string both return `false`
and log nothing.  The same holds for the two loops on every list of lines. -/
theorem C19_block_and_allow_evaluators_agree (re : Regexp) (now : Time) (feed : Feed)
    (entry : Entry) (s : Str) :
    verdict (isBlockedByRules re now feed entry s) =
      verdict (isAllowedByRules re now feed entry s) ∧
    verdictAndRules (isBlockedByRules re now feed entry s) =
      verdictAndRules (isAllowedByRules re now feed entry s) ∧
    (isBlockedByRules re now feed entry s = none ↔ isAllowedByRules re now feed entry s = none) ∧
    isBlockedByRules re now feed entry [] = some (false, []) ∧
    isAllowedByRules re now feed entry [] = some (false, []) ∧
    (∀ lines : List Str,
      verdictAndRules (isBlockedByRules.loop re now feed entry lines) =
        verdictAndRules (isAllowedByRules.loop re now feed entry lines)) := by
  have hloop : ∀ lines : List Str,
      verdictAndRules (isBlockedByRules.loop re now feed entry lines) =
        verdictAndRules (isAllowedByRules.loop re now feed entry lines) := by
    intro lines
    rw [isBlockedByRules_loop_eq, isAllowedByRules_loop_eq]
    cases firstMatch re now entry lines with
    | none => rfl
    | some fired => cases fired <;> rfl
  refine ⟨?_, ?_, ?_, rfl, rfl, hloop⟩
  · rw [isBlockedByRules_eq, isAllowedByRules_eq]
    cases firstMatch re now entry (strings.Split s '\n') with
    | none => rfl
    | some fired => cases fired <;> rfl
  · rw [isBlockedByRules_eq, isAllowedByRules_eq]
    cases firstMatch re now entry (strings.Split s '\n') with
    | none => rfl
    | some fired => cases fired <;> rfl
  · rw [isBlockedByRules_eq, isAllowedByRules_eq]
    cases firstMatch re now entry (strings.Split s '\n') with
    | none => simp
    | some fired => simp

/-! ## C20: empty lines -/

theorem lineError_nil (re : Regexp) : lineError re [] = some .FieldNameInvalid := rfl

theorem not_wellFormed_nil (re : Regexp) : ¬ WellFormedLine re [] := by
  rintro ⟨F, _, p, e, _, _⟩
  have := congrArg List.length e
  simp only [List.length_nil, List.length_append, List.length_cons] at this
  omega

/-- C20: for every rule-set kind, `isValidFilterRules` rejects every rule set
with an empty line; the empty string gets the field-name error at line 1; a
valid rule set of `n` lines followed by a newline gets the field-name error at
line `n + 1`.  The matcher evaluates the empty line to "no match", returns
`false` on the empty string, and gives a rule set followed by a newline the
result of the rule set. -/
theorem C20_empty_line_rejected (re : Regexp) (now : Time) (feed : Feed) (entry : Entry)
    (s k : Str) :
    ([] ∈ strings.Split s '\n' → isValidFilterRules re s k ≠ none) ∧
    isValidFilterRules re [] k = some
      ⟨"error.settings_".toList ++ k ++ "_rule_fieldname_invalid".toList,
        [Arg.int 1, Arg.str fieldNamesDisplay]⟩ ∧
    (isValidFilterRules re s k = none →
      isValidFilterRules re (s ++ "\n".toList) k = some
        ⟨"error.settings_".toList ++ k ++ "_rule_fieldname_invalid".toList,
          [Arg.int ((strings.Split s '\n').length + 1), Arg.str fieldNamesDisplay]⟩) ∧
    matchLine re now entry [] = some false ∧
    isBlockedByRules re now feed entry [] = some (false, []) ∧
    isBlockedByRules re now feed entry (s ++ "\n".toList) = isBlockedByRules re now feed entry s ∧
    isAllowedByRules re now feed entry (s ++ "\n".toList) =
      isAllowedByRules re now feed entry s := by
  have hsplit : strings.Split (s ++ "\n".toList) '\n' = strings.Split s '\n' ++ [[]] := by
    have := Split_append_cons s [] '\n'
    simpa [strings.Split] using this
  have hfm : firstMatch re now entry (strings.Split s '\n' ++ [[]]) =
      firstMatch re now entry (strings.Split s '\n') := by
    rw [firstMatch_append]
    cases firstMatch re now entry (strings.Split s '\n') with
    | none => rfl
    | some fired => cases fired <;> rfl
  refine ⟨?_, ?_, ?_, rfl, rfl, ?_, ?_⟩
  · intro hmem hvalid
    exact not_wellFormed_nil re (valid_lines_wellFormed re s k hvalid [] hmem)
  · rw [isValidFilterRules_single re [] k (by simp), lineError_nil]
    simp [ruleError]
  · intro hvalid
    have hall : ∀ l ∈ strings.Split s '\n', lineError re l = none :=
      fun l hl => (lineError_eq_none_iff re l).2 (valid_lines_wellFormed re s k hvalid l hl)
    rw [isValidFilterRules, hsplit,
      isValidFilterRules_loop_first_error re k _ [] [] 0 .FieldNameInvalid hall
        (lineError_nil re)]
    simp [ruleError]
  · rw [isBlockedByRules_eq, isBlockedByRules_eq, hsplit, hfm]
  · rw [isAllowedByRules_eq, isAllowedByRules_eq, hsplit, hfm]

/-- C20, with `exampleRegexp` and kind `block`: `EntryTitle=foo` is valid, and
`EntryTitle=foo` followed by a newline gets the field-name error at line 2. -/
theorem C20_empty_line_rejected_witness :
    isValidFilterRules exampleRegexp "EntryTitle=foo".toList "block".toList = none ∧
    isValidFilterRules exampleRegexp ("EntryTitle=foo".toList ++ "\n".toList) "block".toList =
      some ⟨"error.settings_block_rule_fieldname_invalid".toList,
        [Arg.int 2, Arg.str fieldNamesDisplay]⟩ ∧
    isValidFilterRules exampleRegexp "EntryTitle=foo\n\nEntryURL=a".toList "block".toList ≠ none :=
  have h := C20_empty_line_rejected exampleRegexp 0 (feedWith [] []) entryJune
    "EntryTitle=foo".toList "block".toList
  ⟨by decide, h.2.2.1 (by decide),
    (C20_empty_line_rejected exampleRegexp 0 (feedWith [] []) entryJune
      "EntryTitle=foo\n\nEntryURL=a".toList "block".toList).1 (by decide)⟩
